import Mathlib

/-!
# hlsdl: the fetch, retry and assemble pipeline of an HLS downloader

A shallow embedding of `hlsdl.go` and `parser.go`.

* Go `error` values are records carrying the text of `Error()` and the answer of
  `Timeout()`; a nil error is `none`.
* Library and operating-system calls (`http.Client.Get`, `os.Create`, `io.Copy`,
  `file.Write`, `os.RemoveAll`, `exec.Cmd.CombinedOutput`, `url.Parse`,
  `sort.Slice`) are parameters of the model: every theorem quantifies over what
  they answer.
* `HlsDl.Decrypt` is a method whose body is not part of the two embedded files; it
  is a parameter as well.
* `downloadSegments` is a transition system: one transition per access of a
  goroutine to shared state (channel operation, `WaitGroup` operation, start
  of a fetch), with a schedule choosing the next transition.
-/

namespace Hlsdl

/-! ## Errors and strings -/

/-- A non-nil Go `error`: the text `err.Error()` returns and what `Timeout()` answers
(false for errors that have no such method). -/
structure Error where
  msg : String
  timeout : Bool
deriving DecidableEq, Repr

/-- Go `errors.New(text)`. -/
def errorsNew (text : String) : Error := ⟨text, false⟩

/-- Does `s` start with `p` (on character lists). -/
def hasPrefixChars : List Char → List Char → Bool
  | _, [] => true
  | [], _ :: _ => false
  | a :: s, b :: p => a == b && hasPrefixChars s p

/-- Does `sub` occur in `s` as a contiguous run (on character lists). -/
def containsChars : List Char → List Char → Bool
  | [], sub => hasPrefixChars [] sub
  | a :: s, sub => hasPrefixChars (a :: s) sub || containsChars s sub

/-- Go `strings.Contains(s, substr)`. -/
def stringsContains (s substr : String) : Bool :=
  containsChars s.data substr.data

/-- The elements of a path: the runs of characters between slashes (empty runs
included). -/
def splitSlash : List Char → List (List Char)
  | [] => [[]]
  | c :: cs =>
    if c == '/' then [] :: splitSlash cs
    else
      match splitSlash cs with
      | [] => [[c]]
      | x :: xs => (c :: x) :: xs

/-- One element met by `filepath.Clean`, the elements kept so far given last
first: empty elements and `.` are dropped, `..` removes the element before it
(it is kept at the start of a path that is not rooted, dropped at the start of
a rooted one). -/
def cleanStep (rooted : Bool) (kept : List (List Char)) (elem : List Char) :
    List (List Char) :=
  if elem = [] ∨ elem = ['.'] then kept
  else if elem = ['.', '.'] then
    match kept with
    | top :: rest => if top = ['.', '.'] then elem :: kept else rest
    | [] => if rooted then [] else [elem]
  else elem :: kept

/-- Go `filepath.Clean(path)` with `/` as separator. -/
def filepathClean (path : String) : String :=
  let rooted := path.data.head? == some '/'
  let kept := (splitSlash path.data).foldl (cleanStep rooted) []
  let out := (if rooted then "/" else "") ++ String.intercalate "/" (kept.reverse.map String.mk)
  if out = "" then "." else out

/-- Go `filepath.Join(dir, name)` with `/` as separator: empty leading elements are
ignored, the rest is joined with a slash and cleaned. -/
def filepathJoin (dir name : String) : String :=
  if dir = "" then (if name = "" then "" else filepathClean name)
  else filepathClean (dir ++ "/" ++ name)

/-! ## Data model -/

/-- The `m3u8.Key` record a segment may point to. -/
structure Key where
  Method : String
  URI : String
  IV : String
deriving DecidableEq, Repr

/-- The `Segment` struct: the fields of the embedded `*m3u8.MediaSegment` the
code reads (`SeqId`, `URI`, `Key`, the key being an address into a key store),
and `Path`. -/
structure Segment where
  SeqId : Nat
  URI : String
  Key : Option Nat
  Path : String
deriving DecidableEq, Repr

/-- The `DownloadResult` struct. -/
structure DownloadResult where
  Err : Option Error
  SeqId : Nat
deriving DecidableEq, Repr

/-! ## `join` -/

/-- What the world answers to `join`: the calls it makes that can fail. The loop
handles each segment of the slice once, so the answers are given per segment. -/
structure JoinEnv where
  /-- The call `os.Create(tspath)`: the error, if any. -/
  create : String → Option Error
  /-- The call `hlsDl.Decrypt(segment)`. -/
  decrypt : Segment → Except Error (List UInt8)
  /-- The call `file.Write(d)` for the bytes of a segment: `none` when all of `d` was
  written, else the number of bytes that were written and the error. -/
  write : Segment → List UInt8 → Option (Nat × Error)
  /-- The call `os.RemoveAll(segment.Path)`. -/
  removeAll : String → Option Error
  /-- The call `ts.CombinedOutput()` of the `ffmpeg` command, given input and output path. -/
  ffmpeg : String → String → Option Error
  /-- The call `os.Remove(tspath)`. -/
  remove : String → Option Error

/-- What the segment loop of `join` has done so far. -/
structure JoinLoop where
  /-- bytes written to the raw output file, in order -/
  written : List UInt8
  /-- paths handed to `os.RemoveAll` that were removed, in order -/
  removed : List String
  /-- segments whose loop body was entered, in order -/
  visited : List Segment
deriving DecidableEq, Repr

/-- The loop `for _, segment := range segments` of `join`: the state reached
and the error that made the function return early, if any. -/
def joinLoop (env : JoinEnv) : List Segment → JoinLoop → JoinLoop × Option Error
  | [], st => (st, none)
  | segment :: rest, st =>
    let st := { st with visited := st.visited ++ [segment] }
    match env.decrypt segment with
    | .error err => (st, some err)
    | .ok d =>
      match env.write segment d with
      | some (n, err) => ({ st with written := st.written ++ d.take n }, some err)
      | none =>
        let st := { st with written := st.written ++ d }
        match env.removeAll segment.Path with
        | some err => (st, some err)
        | none => joinLoop env rest { st with removed := st.removed ++ [segment.Path] }

/-- Everything observable of one call of `join`. -/
structure JoinResult where
  /-- first return value -/
  path : String
  /-- second return value -/
  err : Option Error
  /-- was the raw output file created -/
  created : Bool
  /-- bytes written to the raw output file -/
  written : List UInt8
  /-- transient files removed -/
  removed : List String
  /-- segments whose loop body was entered -/
  visited : List Segment
  /-- was the `ffmpeg` command run -/
  remuxRan : Bool
  /-- did the `ffmpeg` command succeed -/
  remuxOk : Bool
  /-- was the raw output file removed at the end -/
  rawRemoved : Bool
deriving DecidableEq, Repr

/-- The method `HlsDl.join`. `sortSlice` is what
`sort.Slice(segments, func(i, j) bool { return segments[i].SeqId < segments[j].SeqId })`
leaves in the slice. -/
def join (sortSlice : List Segment → List Segment) (env : JoinEnv)
    (dir : String) (segments : List Segment) : JoinResult :=
  let tspath := filepathJoin dir "video.ts"
  match env.create tspath with
  | some err =>
    { path := "", err := some err, created := false, written := [], removed := [],
      visited := [], remuxRan := false, remuxOk := false, rawRemoved := false }
  | none =>
    let segments := sortSlice segments
    match joinLoop env segments ⟨[], [], []⟩ with
    | (st, some err) =>
      { path := "", err := some err, created := true, written := st.written,
        removed := st.removed, visited := st.visited,
        remuxRan := false, remuxOk := false, rawRemoved := false }
    | (st, none) =>
      let mp4path := filepathJoin dir "all.mp4"
      match env.ffmpeg tspath mp4path with
      | some _ =>
        { path := mp4path, err := none, created := true, written := st.written,
          removed := st.removed, visited := st.visited,
          remuxRan := true, remuxOk := false, rawRemoved := false }
      | none =>
        { path := mp4path, err := none, created := true, written := st.written,
          removed := st.removed, visited := st.visited,
          remuxRan := true, remuxOk := true,
          rawRemoved := (env.remove tspath).isNone }

/-- The contract of `sort.Slice` with the comparison of `join`: the slice is
rearranged (a permutation) so that no element comes before one of smaller
`SeqId`. The sort is not stable. -/
def SortsBySeqId (sortSlice : List Segment → List Segment) (segments : List Segment) : Prop :=
  (sortSlice segments).Perm segments ∧
    (sortSlice segments).Sorted (fun a b => a.SeqId ≤ b.SeqId)

/-- The bytes `Decrypt` yields for a segment (empty when it fails). -/
def decrypted (env : JoinEnv) (s : Segment) : List UInt8 :=
  match env.decrypt s with
  | .ok d => d
  | .error _ => []

/-- A concrete sort meeting the contract: insertion sort on `SeqId`. -/
def insertionSortSlice (segments : List Segment) : List Segment :=
  segments.insertionSort (fun a b => a.SeqId ≤ b.SeqId)

/-- A segment for which decryption, the write and the removal all succeed. -/
def JoinStepOk (env : JoinEnv) (s : Segment) : Prop :=
  ∃ d, env.decrypt s = .ok d ∧ env.write s d = none ∧ env.removeAll s.Path = none

/-! ## Sample inputs for `join` -/

/-- A world in which every call of `join` succeeds; the plaintext of a segment is
the two bytes `0xAA, SeqId`. -/
def quietEnv : JoinEnv where
  create := fun _ => none
  decrypt := fun s => .ok [0xAA, UInt8.ofNat s.SeqId]
  write := fun _ _ => none
  removeAll := fun _ => none
  ffmpeg := fun _ _ => none
  remove := fun _ => none

/-- The world of `quietEnv`, except that the `ffmpeg` command fails. -/
def noFfmpegEnv : JoinEnv :=
  { quietEnv with ffmpeg := fun _ _ => some ⟨"exec: \"ffmpeg\": executable file not found in $PATH", false⟩ }

/-- The world of `quietEnv`, except that `Decrypt` fails on the segment with
sequence id 2. -/
def badKeyEnv : JoinEnv :=
  { quietEnv with
    decrypt := fun s =>
      if s.SeqId = 2 then .error ⟨"unsupported encryption method", false⟩
      else .ok [0xAA, UInt8.ofNat s.SeqId] }

/-- A downloaded segment with sequence id `n`. -/
def sampleSegment (n : Nat) : Segment :=
  { SeqId := n, URI := "http://example.com/v/" ++ toString n ++ ".ts", Key := none,
    Path := filepathJoin "out" ("seg" ++ toString n ++ ".ts") }

/-- Five segments delivered with sequence ids 3, 1, 4, 0, 2. -/
def shuffledSegments : List Segment :=
  [sampleSegment 3, sampleSegment 1, sampleSegment 4, sampleSegment 0, sampleSegment 2]

/-! ## `downloadSegment` and the retry loop of a worker -/

/-- The fields of `http.Response` the code reads. -/
structure Response where
  StatusCode : Int
  Status : String
  Body : List UInt8
deriving DecidableEq, Repr

/-- What the world answers during one call of `downloadSegment`. -/
structure FetchWorld where
  /-- The call `hlsDl.client.Get(uri)` -/
  get : String → Except Error Response
  /-- The call `os.Create(path)`: the error, if any -/
  create : String → Option Error
  /-- The call `io.Copy(file, res.Body)`: the error, if any -/
  copy : List UInt8 → Option Error

/-- The method `HlsDl.downloadSegment`: the error it returns, `none` for nil. -/
def downloadSegment (w : FetchWorld) (segment : Segment) : Option Error :=
  match w.get segment.URI with
  | .error err => some err
  | .ok res =>
    if res.StatusCode ≠ 200 then some (errorsNew res.Status)
    else
      match w.create segment.Path with
      | some err => some err
      | none =>
        match w.copy res.Body with
        | some err => some err
        | none => none

/-- The condition of the retry jump:
`strings.Contains(err.Error(), "connection reset by peer") && tried < 3`. -/
def retryable (err : Error) (tried : Nat) : Bool :=
  stringsContains err.msg "connection reset by peer" && decide (tried < 3)

/-- What a worker did with one segment taken from `segmentChan`. -/
structure SegmentRun where
  /-- number of calls of `downloadSegment` -/
  fetches : Nat
  /-- the value sent on `downloadResultChan`, if one was sent -/
  sent : Option DownloadResult
  /-- did the goroutine return instead of taking the next segment -/
  returned : Bool
deriving DecidableEq, Repr

/-- The body of `for segment := range segmentChan` in a worker, entered at the
label `DOWNLOAD` with the current value of `tried`. `quit t` tells whether the
`select` before attempt `t` finds `quitChan` closed, `world t` is the world
during attempt `t`. Each passage through the label uses one unit of fuel. -/
def downloadLoop (quit : Nat → Bool) (world : Nat → FetchWorld) (segment : Segment) :
    Nat → Nat → Option SegmentRun
  | 0, _ => none
  | fuel + 1, tried =>
    let tried := tried + 1
    if quit tried then
      some { fetches := tried - 1, sent := none, returned := true }
    else
      match downloadSegment (world tried) segment with
      | some err =>
        if retryable err tried then
          downloadLoop quit world segment fuel tried
        else
          some { fetches := tried, sent := some { Err := some err, SeqId := segment.SeqId },
                 returned := true }
      | none =>
        some { fetches := tried, sent := some { Err := none, SeqId := segment.SeqId },
               returned := false }

/-- Cancellation is never raised. -/
def neverQuit : Nat → Bool := fun _ => false

/-- Attempt `t` on the segment fails with an error whose text contains
"connection reset by peer". -/
def ResetFault (world : Nat → FetchWorld) (segment : Segment) (t : Nat) : Prop :=
  ∃ err, downloadSegment (world t) segment = some err ∧
    stringsContains err.msg "connection reset by peer" = true

/-! ## Sample worlds for a worker -/

/-- The error of a reset connection, as the HTTP client reports it. -/
def resetError : Error :=
  ⟨"Get \"http://example.com/v/7.ts\": read tcp 10.0.0.2:51234->93.184.216.34:80: read: connection reset by peer", false⟩

/-- The error of a request that ran into the client timeout. -/
def timeoutError : Error :=
  ⟨"Get \"http://example.com/v/7.ts\": context deadline exceeded (Client.Timeout exceeded while awaiting headers)", true⟩

/-- A world in which the request succeeds with status 200. -/
def okWorld : FetchWorld where
  get := fun _ => .ok ⟨200, "200 OK", [0x47]⟩
  create := fun _ => none
  copy := fun _ => none

/-- A world in which the request fails with the given error. -/
def failWorld (e : Error) : FetchWorld where
  get := fun _ => .error e
  create := fun _ => none
  copy := fun _ => none

/-- A world in which the server answers with the given status line. -/
def statusWorld (code : Int) (status : String) : FetchWorld where
  get := fun _ => .ok ⟨code, status, []⟩
  create := fun _ => none
  copy := fun _ => none

/-- Attempts 1 and 2 meet a reset connection, attempt 3 succeeds. -/
def twoResetsThenOk : Nat → FetchWorld :=
  fun t => if t < 3 then failWorld resetError else okWorld

/-- Every attempt meets a reset connection. -/
def alwaysReset : Nat → FetchWorld := fun _ => failWorld resetError

/-- Every attempt runs into the client timeout. -/
def alwaysTimeout : Nat → FetchWorld := fun _ => failWorld timeoutError

/-- The first answer is a 503 whose reason phrase is "connection reset by peer",
later attempts succeed. -/
def resetPhraseThenOk : Nat → FetchWorld :=
  fun t => if t < 2 then statusWorld 503 "503 connection reset by peer" else okWorld

/-- Every answer is a 404. -/
def alwaysNotFound : Nat → FetchWorld := fun _ => statusWorld 404 "404 Not Found"

/-! ## `downloadSegments` as a transition system

The goroutines of `downloadSegments`: the workers, the feeder (the goroutine
ranging over `segments`), the waiter (the goroutine of `wait`) and the
collector (the caller, in its `for { select { ... } }` loop). A transition is one
access of one goroutine to state shared with the others; the statements between
two accesses touch only variables local to the goroutine and are folded into
the transition that follows them. -/

/-- The inputs of one call of `downloadSegments`. -/
structure Config where
  /-- The field `hlsDl.dir` -/
  dir : String
  /-- The field `hlsDl.workers` -/
  workers : Nat
  /-- The field `hlsDl.enableBar` -/
  enableBar : Bool
  /-- the argument `segments` -/
  segments : List Segment
  /-- the world during the attempt numbered `tried` on the segment with the given
  sequence id -/
  net : Nat → Nat → FetchWorld

/-- Where a worker goroutine stands. -/
inductive WorkerPc
  /-- at `for segment := range segmentChan`, waiting for a segment -/
  | recv
  /-- at the `select` on `quitChan`, `tried` already incremented -/
  | check (segment : Segment) (tried : Nat)
  /-- past the `select` (default case), about to call `downloadSegment` -/
  | fetch (segment : Segment) (tried : Nat)
  /-- inside `downloadSegment` -/
  | fetching (segment : Segment) (tried : Nat)
  /-- at `downloadResultChan <- &DownloadResult{SeqId: ...}` -/
  | sendOk (segment : Segment)
  /-- at `downloadResultChan <- &DownloadResult{Err: err, SeqId: ...}` -/
  | sendErr (segment : Segment) (err : Error)
  /-- returning, the deferred `wg.Done()` not yet run -/
  | exiting
  /-- goroutine ended -/
  | done
deriving DecidableEq, Repr

/-- Where the feeder goroutine stands. -/
inductive FeederPc
  /-- in the loop over the segments still to hand out (at the `select` when
  there is one, at the end of the loop otherwise) -/
  | feed (rest : List Segment)
  /-- returned through `case <-quitChan`, the deferred `close(segmentChan)` not
  yet run -/
  | closing
  /-- goroutine ended -/
  | done
deriving DecidableEq, Repr

/-- Where the goroutine of `wait` stands. -/
inductive WaiterPc
  /-- in `wg.Wait()` -/
  | waiting
  /-- at `c <- true` -/
  | signal
  /-- goroutine ended -/
  | done
deriving DecidableEq, Repr

/-- Where the collector (the body of `downloadSegments` itself) stands. -/
inductive CollectorPc
  /-- at the `select` of the final loop -/
  | select
  /-- received a result with a non-nil `Err`, about to `close(quitChan)` and
  return it -/
  | closing (err : Error)
  /-- The function `downloadSegments` has returned this error (`none` for nil) -/
  | returned (err : Option Error)
deriving DecidableEq, Repr

/-- One start of a fetch (one call of `downloadSegment`), for the record. -/
structure FetchStart where
  /-- index of the worker -/
  worker : Nat
  /-- sequence id of the segment -/
  SeqId : Nat
  /-- number of the attempt -/
  tried : Nat
  /-- was `quitChan` already closed when the call started -/
  afterQuit : Bool
deriving DecidableEq, Repr

/-- The shared state and the position of every goroutine. The last two fields
record history and influence no transition. -/
structure State where
  workers : List WorkerPc
  feeder : FeederPc
  waiter : WaiterPc
  collector : CollectorPc
  /-- counter of the `WaitGroup` -/
  wg : Nat
  /-- Is `quitChan` closed -/
  quitClosed : Bool
  /-- Is `segmentChan` closed -/
  segClosed : Bool
  /-- buffer of `downloadResultChan`, oldest first -/
  results : List DownloadResult
  /-- a value waits in `finishedChan` -/
  finished : Bool
  /-- increments of the progress bar -/
  bar : Nat
  /-- every result ever sent on `downloadResultChan`, oldest first -/
  sent : List DownloadResult
  /-- every start of a fetch, oldest first -/
  fetchLog : List FetchStart
deriving DecidableEq, Repr

/-- The state after the goroutines have been started. -/
def State.init (cfg : Config) : State where
  workers := List.replicate cfg.workers .recv
  feeder := .feed cfg.segments
  waiter := .waiting
  collector := .select
  wg := cfg.workers
  quitClosed := false
  segClosed := false
  results := []
  finished := false
  bar := 0
  sent := []
  fetchLog := []

/-- The choices of the scheduler. -/
inductive Action
  /-- the feeder's `case segmentChan <- segment` meets the receive of worker `i` -/
  | handoff (i : Nat)
  /-- the feeder's `select` takes `case <-quitChan` -/
  | feederQuit
  /-- the feeder runs `close(segmentChan)` -/
  | feederClose
  /-- worker `i` makes its next transition (other than receiving a segment) -/
  | worker (i : Nat)
  /-- the goroutine of `wait` makes its next transition -/
  | waiter
  /-- the collector's `select` takes `case <-finishedChan` -/
  | collectFinished
  /-- the collector's `select` takes `case result := <-downloadResultChan` -/
  | collectResult
  /-- the collector runs `close(quitChan)` and returns the error -/
  | collectorClose
deriving DecidableEq, Repr

/-- The segment as the feeder sends it: `Path` set to
`filepath.Join(hlsDl.dir, fmt.Sprintf("seg%d.ts", segment.SeqId))`. -/
def withPath (cfg : Config) (segment : Segment) : Segment :=
  { segment with Path := filepathJoin cfg.dir ("seg" ++ toString segment.SeqId ++ ".ts") }

/-- The next transition of worker `i` standing at `pc`; `none` when the worker
is blocked or has ended. -/
def workerStep (cfg : Config) (s : State) (i : Nat) : WorkerPc → Option State
  | .recv =>
    if s.segClosed then some { s with workers := s.workers.set i .exiting } else none
  | .check segment tried =>
    if s.quitClosed then some { s with workers := s.workers.set i .exiting }
    else some { s with workers := s.workers.set i (.fetch segment tried) }
  | .fetch segment tried =>
    some { s with
      workers := s.workers.set i (.fetching segment tried),
      fetchLog := s.fetchLog ++ [⟨i, segment.SeqId, tried, s.quitClosed⟩] }
  | .fetching segment tried =>
    match downloadSegment (cfg.net segment.SeqId tried) segment with
    | some err =>
      if retryable err tried then
        some { s with workers := s.workers.set i (.check segment (tried + 1)) }
      else
        some { s with workers := s.workers.set i (.sendErr segment err) }
    | none => some { s with workers := s.workers.set i (.sendOk segment) }
  | .sendOk segment =>
    if s.results.length < cfg.workers then
      some { s with
        workers := s.workers.set i .recv,
        results := s.results ++ [⟨none, segment.SeqId⟩],
        sent := s.sent ++ [⟨none, segment.SeqId⟩] }
    else none
  | .sendErr segment err =>
    if s.results.length < cfg.workers then
      some { s with
        workers := s.workers.set i .exiting,
        results := s.results ++ [⟨some err, segment.SeqId⟩],
        sent := s.sent ++ [⟨some err, segment.SeqId⟩] }
    else none
  | .exiting => some { s with workers := s.workers.set i .done, wg := s.wg - 1 }
  | .done => none

/-- One transition: the state after the chosen action, `none` when the action
is not enabled. -/
def step (cfg : Config) (s : State) : Action → Option State
  | .handoff i =>
    match s.feeder, s.workers[i]? with
    | .feed (segment :: rest), some .recv =>
      some { s with
        feeder := .feed rest,
        workers := s.workers.set i (.check (withPath cfg segment) 1) }
    | _, _ => none
  | .feederQuit =>
    match s.feeder with
    | .feed (_ :: _) => if s.quitClosed then some { s with feeder := .closing } else none
    | _ => none
  | .feederClose =>
    match s.feeder with
    | .feed [] => some { s with feeder := .done, segClosed := true }
    | .closing => some { s with feeder := .done, segClosed := true }
    | _ => none
  | .worker i =>
    match s.workers[i]? with
    | some pc => workerStep cfg s i pc
    | none => none
  | .waiter =>
    match s.waiter with
    | .waiting => if s.wg = 0 then some { s with waiter := .signal } else none
    | .signal => some { s with waiter := .done, finished := true }
    | .done => none
  | .collectFinished =>
    match s.collector with
    | .select =>
      if s.finished then some { s with collector := .returned none, finished := false }
      else none
    | _ => none
  | .collectResult =>
    match s.collector, s.results with
    | .select, result :: rest =>
      match result.Err with
      | some err => some { s with collector := .closing err, results := rest }
      | none =>
        some { s with results := rest, bar := if cfg.enableBar then s.bar + 1 else s.bar }
    | _, _ => none
  | .collectorClose =>
    match s.collector with
    | .closing err => some { s with collector := .returned (some err), quitClosed := true }
    | _ => none

/-- The state after a schedule, `none` when it asks for a transition that is
not enabled. -/
def run (cfg : Config) : State → List Action → Option State
  | s, [] => some s
  | s, a :: rest =>
    match step cfg s a with
    | some s' => run cfg s' rest
    | none => none

/-- Number of fetches worker `i` started with `quitChan` already closed. -/
def startedAfterQuit (s : State) (i : Nat) : Nat :=
  s.fetchLog.countP (fun f => f.afterQuit && decide (f.worker = i))

/-- The worker stands between its cancellation check and the fetch: 1 if so,
else 0. -/
def awaitingFetch : Option WorkerPc → Nat
  | some (.fetch _ _) => 1
  | _ => 0

/-! ## Sample runs of `downloadSegments` -/

/-- One worker, one segment, the server answers 404. -/
def oneNotFound : Config where
  dir := "out"
  workers := 1
  enableBar := false
  segments := [{ SeqId := 0, URI := "http://example.com/v/0.ts", Key := none, Path := "" }]
  net := fun _ _ => statusWorld 404 "404 Not Found"

/-- The worker takes the segment, fetches it, gets the 404, sends the fatal
result and ends; the waiter then fills `finishedChan`. The collector has not
run yet. -/
def raceSchedule : List Action :=
  [.handoff 0, .worker 0, .worker 0, .worker 0, .worker 0, .worker 0, .waiter, .waiter]

/-- Two workers, two segments; the server answers 404 for sequence id 0 and
200 for sequence id 1. -/
def twoSegments : Config where
  dir := "out"
  workers := 2
  enableBar := false
  segments :=
    [{ SeqId := 0, URI := "http://example.com/v/0.ts", Key := none, Path := "" },
     { SeqId := 1, URI := "http://example.com/v/1.ts", Key := none, Path := "" }]
  net := fun seqId _ => if seqId = 0 then statusWorld 404 "404 Not Found" else okWorld

/-- Worker 0 fails on segment 0 and sends the fatal result; worker 1 takes
segment 1 and passes its cancellation check; the collector then receives the
fatal result. -/
def lateCheckPrefix : List Action :=
  [.handoff 0, .worker 0, .worker 0, .worker 0, .worker 0,
   .handoff 1, .worker 1, .collectResult]

/-- How a transition may change the position list of the workers and the fetch
record: a fetch is started by worker `j`, or worker `j` moves otherwise (to a
position that is not "about to fetch", or with `quitChan` still open), or
nothing changes. -/
def WorkerEffect (s s' : State) : Prop :=
  (∃ j seg t, s.workers[j]? = some (.fetch seg t) ∧
      s'.workers = s.workers.set j (.fetching seg t) ∧
      s'.fetchLog = s.fetchLog ++ [⟨j, seg.SeqId, t, s.quitClosed⟩]) ∨
  (∃ j pc', s'.workers = s.workers.set j pc' ∧ s'.fetchLog = s.fetchLog ∧
      (awaitingFetch (some pc') = 0 ∨ s.quitClosed = false)) ∨
  (s'.workers = s.workers ∧ s'.fetchLog = s.fetchLog)

/-- The history is consistent with the close flag: once `quitChan` is closed
the collector has returned, and before that no fetch is recorded as started
after the close. -/
def CloseConsistent (s : State) : Prop :=
  (s.quitClosed = true → ∃ e, s.collector = .returned e) ∧
  (s.quitClosed = false → ∀ f ∈ s.fetchLog, f.afterQuit = false)

/-- From the close of `quitChan` on, relative to the state `base` in which it was
closed: a worker has started at most one fetch since, and only if it stood
between check and fetch in `base`; while that fetch is not yet started the
worker still stands there. -/
def AfterClose (base s : State) : Prop :=
  s.quitClosed = true ∧
  ∀ i, startedAfterQuit s i + awaitingFetch s.workers[i]? ≤ awaitingFetch base.workers[i]?

/-- The state `lateCheckPrefix` leads to: worker 0 is returning, worker 1 stands
between its check and its fetch, the collector is about to close `quitChan`. -/
def lateCheckState : State where
  workers :=
    [.exiting,
     .fetch { SeqId := 1, URI := "http://example.com/v/1.ts", Key := none,
              Path := "out/seg1.ts" } 1]
  feeder := .feed []
  waiter := .waiting
  collector := .closing (errorsNew "404 Not Found")
  wg := 2
  quitClosed := false
  segClosed := false
  results := []
  finished := false
  bar := 0
  sent := [⟨some (errorsNew "404 Not Found"), 0⟩]
  fetchLog := [⟨0, 0, 1, false⟩]

/-- The state after the close of `quitChan`, the start of worker 1's fetch and
the end of worker 0. -/
def lateFetchState : State :=
  { lateCheckState with
    workers :=
      [.done,
       .fetching { SeqId := 1, URI := "http://example.com/v/1.ts", Key := none,
                   Path := "out/seg1.ts" } 1]
    collector := .returned (some (errorsNew "404 Not Found"))
    wg := 1
    quitClosed := true
    fetchLog := [⟨0, 0, 1, false⟩, ⟨1, 1, 1, true⟩] }

/-! ## `parser.go` -/

/-- The fields of `m3u8.Variant` the code reads. `Bandwidth` is a `uint32`. -/
structure Variant where
  URI : String
  Bandwidth : Nat
  Resolution : String
deriving DecidableEq, Repr

/-- The fields of `m3u8.MediaSegment` the code reads; `Key` is the address of a
key record, `none` for nil. -/
structure MediaSegment where
  SeqId : Nat
  URI : String
  Key : Option Nat
deriving DecidableEq, Repr

/-- A decoded media playlist: the slice `Segments` with its nil entries, the
pointer `Key`, and the key records the pointers of the playlist refer to, by
address. -/
structure MediaPlaylist where
  Segments : List (Option MediaSegment)
  Key : Option Nat
  keys : Nat → Hlsdl.Key

/-- A decoded master playlist. -/
structure MasterPlaylist where
  Variants : List Variant
deriving DecidableEq, Repr

/-- The pair `(p, t)` that `m3u8.DecodeFrom` yields: list type `MASTER` with a
value that is a `*m3u8.MasterPlaylist` or not, list type `MEDIA` with its
playlist, or another list type. -/
inductive Playlist
  | master (p : Option MasterPlaylist)
  | media (p : MediaPlaylist)
  | other

/-- The platform, library and network of `parser.go`. -/
structure ParserWorld where
  /-- The size in bits of the Go type `int` on the target: 32 or 64 -/
  intBits : Nat
  /-- The call `url.Parse(raw)`: the text `String()` gives for the parsed URL, or the error -/
  urlParse : String → Except Error String
  /-- The call `baseURL.Parse(ref)` for `baseURL` parsed from `base`: the text `String()`
  gives for the result, or the error -/
  resolve : String → String → Except Error String
  /-- The call `http.Get(hlsURL)` -/
  httpGet : String → Except Error Response
  /-- The call `m3u8.DecodeFrom(res.Body, false)` -/
  decode : List UInt8 → Except Error Playlist

/-- The function `getM3u8ListType`. -/
def getM3u8ListType (w : ParserWorld) (hlsURL : String) : Except Error Playlist :=
  match w.httpGet hlsURL with
  | .error err => .error err
  | .ok res =>
    if res.StatusCode ≠ 200 then .error (errorsNew res.Status)
    else w.decode res.Body

/-- The conversion `int(v.Bandwidth)` of a `uint32` to an `int` of `intBits` bits:
the low `intBits` bits of the value, read in two's complement. With 64 bits the
value is kept; with 32 bits a value of 2^31 or more becomes negative. -/
def intOfUint32 (intBits : Nat) (b : Nat) : Int :=
  let m := (b % 2 ^ 32) % 2 ^ intBits
  if m < 2 ^ (intBits - 1) then Int.ofNat m else Int.ofNat m - Int.ofNat (2 ^ intBits)

/-- A Go map from `int` to `*m3u8.Variant`: the lookup function, `none` for a
missing key. -/
abbrev VariantMap := Int → Option Variant

/-- The assignment `m[k] = v`. -/
def VariantMap.set (m : VariantMap) (k : Int) (v : Variant) : VariantMap :=
  fun k' => if k' = k then some v else m k'

/-- The loop `for k, v := range masterpl.Variants` filling `allBw` and
`allResolutions`, from the values they have so far. -/
def collectVariants (intBits : Nat) :
    List Variant → List Int × VariantMap → List Int × VariantMap
  | [], acc => acc
  | v :: rest, (allBw, allResolutions) =>
    collectVariants intBits rest
      (allBw ++ [intOfUint32 intBits v.Bandwidth],
        allResolutions.set (intOfUint32 intBits v.Bandwidth) v)

/-- The call `sort.Sort(sort.Reverse(sort.IntSlice(allBw)))`: the integers in
descending order (the outcome does not depend on the sorting algorithm). -/
def sortReverse (allBw : List Int) : List Int :=
  allBw.insertionSort (fun a b => b ≤ a)

/-- The value `allResolutions[allBw[0]]` after the sort; `none` where the Go code
would fail at run time (empty slice, nil variant). -/
def bestVariant (intBits : Nat) (variants : List Variant) : Option Variant :=
  match collectVariants intBits variants ([], fun _ => none) with
  | (allBw, allResolutions) =>
    match sortReverse allBw with
    | [] => none
    | top :: _ => allResolutions top

/-- The loop `for _, seg := range mediaList.Segments`: the segments gathered so
far and the key records as the loop has rewritten them, or the error returned. -/
def parseMediaLoop (w : ParserWorld) (hlsURL : String) (playlistKey : Option Nat) :
    List (Option MediaSegment) → (Nat → Key) → List Segment →
      Except Error (List Segment × (Nat → Key))
  | [], keys, segments => .ok (segments, keys)
  | none :: rest, keys, segments => parseMediaLoop w hlsURL playlistKey rest keys segments
  | some seg :: rest, keys, segments =>
    let uri : Except Error String :=
      if !stringsContains seg.URI "http" then w.resolve hlsURL seg.URI else .ok seg.URI
    match uri with
    | .error err => .error err
    | .ok uri =>
      let key : Option Nat :=
        if seg.Key.isNone && playlistKey.isSome then playlistKey else seg.Key
      let segment : Segment := { SeqId := seg.SeqId, URI := uri, Key := key, Path := "" }
      match key with
      | none => parseMediaLoop w hlsURL playlistKey rest keys (segments ++ [segment])
      | some a =>
        if !stringsContains (keys a).URI "http" then
          match w.resolve hlsURL (keys a).URI with
          | .error err => .error err
          | .ok keyURL =>
            parseMediaLoop w hlsURL playlistKey rest
              (fun b => if b = a then { keys a with URI := keyURL } else keys b)
              (segments ++ [segment])
        else parseMediaLoop w hlsURL playlistKey rest keys (segments ++ [segment])

/-- The text of `variantURL` computed for the chosen variant: its URI resolved
against the playlist URL when it does not contain "http", parsed on its own
otherwise. -/
def variantURL (w : ParserWorld) (hlsURL : String) (best : Variant) : Except Error String :=
  if !stringsContains best.URI "http" then w.resolve hlsURL best.URI
  else
    match w.urlParse best.URI with
    | .error _ => .error (errorsNew "got m3u8 master playlist but bestVariant.URI failed")
    | .ok u => .ok u

/-- The function `parseHlsSegments`: the segments (and the key records they
point to) or the error. A master playlist makes the function call itself on the
URL of the chosen variant; each call uses one unit of fuel, `none` means the
fuel ran out or the Go code failed at run time. -/
def parseHlsSegments (w : ParserWorld) :
    Nat → String → Option (Except Error (List Segment × (Nat → Key)))
  | 0, _ => none
  | fuel + 1, hlsURL =>
    match w.urlParse hlsURL with
    | .error _ => some (.error (errorsNew "Invalid m3u8 url"))
    | .ok _ =>
      match getM3u8ListType w hlsURL with
      | .error err => some (.error err)
      | .ok (.master none) =>
        some (.error (errorsNew "got m3u8 master playlist but data not valid"))
      | .ok (.master (some masterpl)) =>
        if masterpl.Variants.length = 0 then
          some (.error (errorsNew "got m3u8 master playlist but zero variants found"))
        else
          match bestVariant w.intBits masterpl.Variants with
          | none => none
          | some best =>
            match variantURL w hlsURL best with
            | .error err => some (.error err)
            | .ok variantURL => parseHlsSegments w fuel variantURL
      | .ok .other => some (.error (errorsNew "No support the m3u8 format"))
      | .ok (.media mediaList) =>
        some (parseMediaLoop w hlsURL mediaList.Key mediaList.Segments mediaList.keys [])

/-- Does the text start with a URI scheme (`URL.IsAbs` of the parsed text): a
letter, then letters, digits, `+`, `-` or `.`, then a colon. The second
argument is the number of characters already read. -/
def hasSchemeChars : List Char → Nat → Bool
  | [], _ => false
  | c :: cs, i =>
    if c.isAlpha then hasSchemeChars cs (i + 1)
    else if c.isDigit || c == '+' || c == '-' || c == '.' then
      if i = 0 then false else hasSchemeChars cs (i + 1)
    else if c == ':' then decide (i ≠ 0)
    else false

/-- Is the URI absolute (does it carry a scheme). -/
def isAbsURI (uri : String) : Bool := hasSchemeChars uri.data 0

/-- How a returned segment relates to the playlist entry it comes from: same
sequence id; the URI unchanged when it contains "http", else the resolution of
the URI against the playlist URL. -/
def SegmentFrom (w : ParserWorld) (hlsURL : String) (out : Segment) (seg : MediaSegment) :
    Prop :=
  out.SeqId = seg.SeqId ∧
  (stringsContains seg.URI "http" = true → out.URI = seg.URI) ∧
  (stringsContains seg.URI "http" = false → w.resolve hlsURL seg.URI = .ok out.URI)

/-! ## Sample inputs for `parser.go` -/

/-- Three variants, the second and the third sharing the highest bandwidth. -/
def sampleVariants : List Variant :=
  [⟨"low/index.m3u8", 800000, "640x360"⟩,
   ⟨"high-a/index.m3u8", 2400000, "1280x720"⟩,
   ⟨"high-b/index.m3u8", 2400000, "1920x1080"⟩]

/-- The directory part of a URL text: everything up to the last slash. -/
def directoryOf (url : String) : String :=
  String.mk (url.data.reverse.dropWhile (fun c => c != '/')).reverse

/-- A media playlist with two entries and a nil entry between them; the URI of
the second entry is relative and contains "http". -/
def sampleMedia : MediaPlaylist where
  Segments :=
    [some ⟨0, "seg0.ts", none⟩, none, some ⟨1, "archive/http/seg1.ts", none⟩]
  Key := none
  keys := fun _ => ⟨"", "", ""⟩

/-- A world with 64-bit `int` that serves `sampleMedia` under every URL; `url.Parse`
accepts every text and a reference is resolved by appending it to the directory
of the base (what the library does for the references of the samples: relative
paths without dot segments). -/
def sampleWorld : ParserWorld where
  intBits := 64
  urlParse := fun raw => .ok raw
  resolve := fun base ref => .ok (directoryOf base ++ ref)
  httpGet := fun _ => .ok ⟨200, "200 OK", []⟩
  decode := fun _ => .ok (.media sampleMedia)

/-- A world like `sampleWorld`, with 32-bit `int`, that serves a master playlist
with `sampleVariants` under every URL. -/
def masterWorld : ParserWorld :=
  { sampleWorld with
    intBits := 32
    decode := fun _ => .ok (.master (some ⟨sampleVariants⟩)) }

/-- Two variants, the first with a bandwidth of 2^31 or more. -/
def wideVariants : List Variant :=
  [⟨"uhd/index.m3u8", 3000000000, "3840x2160"⟩, ⟨"low/index.m3u8", 800000, "640x360"⟩]

/-- A world like `sampleWorld`, with 32-bit `int`, that serves a master playlist
with `wideVariants` under `http://example.com/live/master.m3u8` and `sampleMedia`
under every other URL. -/
def wideWorld32 : ParserWorld :=
  { sampleWorld with
    intBits := 32
    httpGet := fun url =>
      if url = "http://example.com/live/master.m3u8" then .ok ⟨200, "200 OK", [0]⟩
      else .ok ⟨200, "200 OK", [1]⟩
    decode := fun body =>
      if body = [0] then .ok (.master (some ⟨wideVariants⟩)) else .ok (.media sampleMedia) }

/-- The segments of a successful result of `parseHlsSegments`. -/
def returnedSegments :
    Option (Except Error (List Segment × (Nat → Key))) → Option (List Segment)
  | some (.ok (segments, _)) => some segments
  | _ => none

/-- Resolution against the playlist URL yields absolute URIs only (what the
library guarantees for an absolute playlist URL). -/
def ResolvesToAbsolute (w : ParserWorld) (hlsURL : String) : Prop :=
  ∀ ref u, w.resolve hlsURL ref = .ok u → isAbsURI u = true

/-- What `parseHlsSegments` returns for `sampleMedia` fetched from
`http://example.com/live/index.m3u8`. -/
def sampleParsed : List Segment :=
  [⟨0, "http://example.com/live/seg0.ts", none, ""⟩, ⟨1, "archive/http/seg1.ts", none, ""⟩]

/-- Where a worker stands after one fetch attempt numbered `tried` on `segment`. -/
def afterAttempt (cfg : Config) (segment : Segment) (tried : Nat) : WorkerPc :=
  match downloadSegment (cfg.net segment.SeqId tried) segment with
  | some err => if retryable err tried then .check segment (tried + 1) else .sendErr segment err
  | none => .sendOk segment

/-- Where a worker stands when the retry loop has ended with `r`. -/
def afterLoop (segment : Segment) (r : SegmentRun) : WorkerPc :=
  match r.sent with
  | some ⟨none, _⟩ => .sendOk segment
  | some ⟨some err, _⟩ => .sendErr segment err
  | none => .exiting

/-! ## Theorems -/

/-! ### `strings.Contains` -/

theorem hasPrefixChars_iff (s p : List Char) : hasPrefixChars s p = true ↔ p <+: s := by
  induction s generalizing p with
  | nil => cases p <;> simp [hasPrefixChars]
  | cons a s ih =>
    cases p with
    | nil => simp [hasPrefixChars]
    | cons b p =>
      simp only [hasPrefixChars, Bool.and_eq_true, beq_iff_eq, ih, List.cons_prefix_cons]
      constructor
      · rintro ⟨rfl, h⟩; exact ⟨rfl, h⟩
      · rintro ⟨rfl, h⟩; exact ⟨rfl, h⟩

/-- The model of `strings.Contains` holds exactly when the second text occurs in the
first as a contiguous run of characters. -/
theorem stringsContains_iff (s substr : String) :
    stringsContains s substr = true ↔ substr.data <:+: s.data := by
  unfold stringsContains
  generalize s.data = l
  generalize substr.data = p
  induction l with
  | nil =>
    simp only [containsChars, hasPrefixChars_iff]
    constructor
    · intro h; exact h.isInfix
    · intro h
      rw [List.eq_nil_of_infix_nil h]
  | cons a l ih =>
    simp only [containsChars, Bool.or_eq_true, hasPrefixChars_iff, ih]
    exact List.infix_cons_iff.symm

/-! ### `join` -/

theorem decrypted_of_ok {env : JoinEnv} {s : Segment} {d : List UInt8}
    (h : env.decrypt s = .ok d) : decrypted env s = d := by
  simp [decrypted, h]

/-- The loop over a run of segments that all succeed, followed by anything. -/
theorem joinLoop_append_ok (env : JoinEnv) (pre rest : List Segment)
    (hpre : ∀ t ∈ pre, JoinStepOk env t) (st : JoinLoop) :
    joinLoop env (pre ++ rest) st =
      joinLoop env rest
        { written := st.written ++ pre.flatMap (decrypted env),
          removed := st.removed ++ pre.map Segment.Path,
          visited := st.visited ++ pre } := by
  induction pre generalizing st with
  | nil => simp
  | cons t pre ih =>
    obtain ⟨d, hd, hw, hr⟩ := hpre t (List.mem_cons_self _ _)
    have hrest : ∀ u ∈ pre, JoinStepOk env u := fun u hu => hpre u (List.mem_cons_of_mem _ hu)
    simp only [List.cons_append, joinLoop, hd, hw, hr]
    refine (ih hrest _).trans ?_
    simp [List.flatMap_cons, decrypted_of_ok hd, List.append_assoc]

theorem joinLoop_all_ok (env : JoinEnv) (segs : List Segment)
    (hok : ∀ t ∈ segs, JoinStepOk env t) (st : JoinLoop) :
    joinLoop env segs st =
      ({ written := st.written ++ segs.flatMap (decrypted env),
         removed := st.removed ++ segs.map Segment.Path,
         visited := st.visited ++ segs }, none) := by
  have h := joinLoop_append_ok env segs [] hok st
  simpa [joinLoop] using h

/-- With pairwise distinct sequence ids, an arrangement that is ascending is
strictly ascending. -/
theorem sorted_lt_of_nodup {l : List Segment}
    (hs : l.Sorted (fun a b => a.SeqId ≤ b.SeqId))
    (hn : (l.map Segment.SeqId).Nodup) :
    l.Sorted (fun a b => a.SeqId < b.SeqId) := by
  have hne : l.Pairwise (fun a b => a.SeqId ≠ b.SeqId) := by
    simpa [List.Nodup, List.pairwise_map] using hn
  exact (List.Pairwise.and hs hne).imp (fun h => lt_of_le_of_ne h.1 h.2)

/-- Two strictly ascending arrangements of the same segments coincide. -/
theorem strictly_ascending_unique {l₁ l₂ : List Segment} (hp : l₁.Perm l₂)
    (h₁ : l₁.Sorted (fun a b => a.SeqId < b.SeqId))
    (h₂ : l₂.Sorted (fun a b => a.SeqId < b.SeqId)) : l₁ = l₂ :=
  haveI : IsAntisymm Segment (fun a b => a.SeqId < b.SeqId) :=
    ⟨fun _ _ h₁ h₂ => absurd h₁ (Nat.lt_asymm h₂)⟩
  List.eq_of_perm_of_sorted hp h₁ h₂

theorem insertionSortSlice_sorts (segments : List Segment) :
    SortsBySeqId insertionSortSlice segments := by
  haveI : IsTotal Segment (fun a b => a.SeqId ≤ b.SeqId) := ⟨fun a b => Nat.le_total _ _⟩
  haveI : IsTrans Segment (fun a b => a.SeqId ≤ b.SeqId) := ⟨fun _ _ _ h₁ h₂ => Nat.le_trans h₁ h₂⟩
  exact ⟨List.perm_insertionSort _ _, List.sorted_insertionSort _ _⟩

/-- C1. For segments with pairwise distinct sequence ids, given in any order,
when the output file is created and every Decrypt, write and remove succeeds,
the bytes `join` writes to the raw output file are the concatenation of the
Decrypt results taken in the strictly ascending order of the sequence ids
(the one arrangement of the segments that is strictly ascending), every
segment is visited in that order, and `join` returns no error. -/
theorem join_writes_in_ascending_order
    (sortSlice : List Segment → List Segment) (env : JoinEnv) (dir : String)
    (segments : List Segment)
    (hsort : SortsBySeqId sortSlice segments)
    (hnodup : (segments.map Segment.SeqId).Nodup)
    (hcreate : env.create (filepathJoin dir "video.ts") = none)
    (hok : ∀ s ∈ segments, JoinStepOk env s) :
    ∃ order : List Segment,
      order.Perm segments ∧
      order.Sorted (fun a b => a.SeqId < b.SeqId) ∧
      (∀ other : List Segment, other.Perm segments →
        other.Sorted (fun a b => a.SeqId < b.SeqId) → other = order) ∧
      (join sortSlice env dir segments).written = order.flatMap (decrypted env) ∧
      (join sortSlice env dir segments).visited = order ∧
      (join sortSlice env dir segments).err = none := by
  obtain ⟨hperm, hsorted⟩ := hsort
  have hnodup' : ((sortSlice segments).map Segment.SeqId).Nodup :=
    (hperm.map Segment.SeqId).nodup_iff.mpr hnodup
  have hstrict := sorted_lt_of_nodup hsorted hnodup'
  have hok' : ∀ t ∈ sortSlice segments, JoinStepOk env t :=
    fun t ht => hok t (hperm.subset ht)
  refine ⟨sortSlice segments, hperm, hstrict, ?_, ?_, ?_, ?_⟩
  · intro other hp hs
    exact strictly_ascending_unique (hp.trans hperm.symm) hs hstrict
  all_goals
    simp only [join, hcreate, joinLoop_all_ok env _ hok']
    cases env.ffmpeg (filepathJoin dir "video.ts") (filepathJoin dir "all.mp4") <;> simp

/-- C1 at the five segments delivered with ids 3, 1, 4, 0, 2, sorted by insertion
sort, in a world where every call succeeds. -/
theorem join_writes_in_ascending_order_witness :
    ∃ order : List Segment,
      order.Perm shuffledSegments ∧
      order.Sorted (fun a b => a.SeqId < b.SeqId) ∧
      (∀ other : List Segment, other.Perm shuffledSegments →
        other.Sorted (fun a b => a.SeqId < b.SeqId) → other = order) ∧
      (join insertionSortSlice quietEnv "out" shuffledSegments).written =
        order.flatMap (decrypted quietEnv) ∧
      (join insertionSortSlice quietEnv "out" shuffledSegments).visited = order ∧
      (join insertionSortSlice quietEnv "out" shuffledSegments).err = none :=
  join_writes_in_ascending_order insertionSortSlice quietEnv "out" shuffledSegments
    (insertionSortSlice_sorts _) (by decide) rfl (fun _ _ => ⟨_, rfl, rfl, rfl⟩)

/-- The example of the specification: segments delivered with ids 3, 1, 4, 0, 2
are written in the order 0, 1, 2, 3, 4. -/
theorem join_shuffled_example :
    (join insertionSortSlice quietEnv "out" shuffledSegments).written =
        [0xAA, 0, 0xAA, 1, 0xAA, 2, 0xAA, 3, 0xAA, 4] ∧
      (join insertionSortSlice quietEnv "out" shuffledSegments).visited.map Segment.SeqId =
        [0, 1, 2, 3, 4] := by
  decide

/-- The loop over segments that succeed, then one on which Decrypt fails. -/
theorem joinLoop_decrypt_fails (env : JoinEnv) (pre post : List Segment) (s : Segment)
    (e : Error) (hpre : ∀ t ∈ pre, JoinStepOk env t) (hfail : env.decrypt s = .error e)
    (st : JoinLoop) :
    joinLoop env (pre ++ s :: post) st =
      ({ written := st.written ++ pre.flatMap (decrypted env),
         removed := st.removed ++ pre.map Segment.Path,
         visited := st.visited ++ pre ++ [s] }, some e) := by
  rw [joinLoop_append_ok env pre (s :: post) hpre st]
  simp [joinLoop, hfail]

/-- The loop on a list whose element at position `i` is the first to fail, in
Decrypt. -/
theorem joinLoop_fails_at (env : JoinEnv) (l : List Segment) (i : Nat) (hi : i < l.length)
    (e : Error) (hpre : ∀ t ∈ l.take i, JoinStepOk env t)
    (hfail : env.decrypt (l.get ⟨i, hi⟩) = .error e) :
    joinLoop env l ⟨[], [], []⟩ =
      ({ written := (l.take i).flatMap (decrypted env),
         removed := (l.take i).map Segment.Path,
         visited := l.take i ++ [l.get ⟨i, hi⟩] }, some e) ∧
    l.take (i + 1) = l.take i ++ [l.get ⟨i, hi⟩] := by
  have hloop := joinLoop_decrypt_fails env (l.take i) (l.drop (i + 1)) _ e hpre hfail
    ⟨[], [], []⟩
  have hsplit : l.take i ++ l.get ⟨i, hi⟩ :: l.drop (i + 1) = l := by
    rw [List.get_eq_getElem, ← List.drop_eq_getElem_cons hi, List.take_append_drop]
  rw [hsplit] at hloop
  refine ⟨by simpa using hloop, ?_⟩
  rw [List.get_eq_getElem, List.take_succ, List.getElem?_eq_getElem hi]
  rfl

/-- C8. When the output file is created, the segments before position `i` of
the order the sort leaves (ascending in sequence id) all succeed, and Decrypt
fails on the segment at position `i`, then `join` returns that error with an
empty path, enters the loop body for no later segment, does not run the remux
step, leaves in the output file the decrypted bytes of the `i` earlier segments
in order, and has removed the transient files of those `i` segments only. -/
theorem join_decrypt_failure_keeps_earlier_output
    (sortSlice : List Segment → List Segment) (env : JoinEnv) (dir : String)
    (segments : List Segment) (i : Nat) (e : Error)
    (hsort : SortsBySeqId sortSlice segments)
    (hcreate : env.create (filepathJoin dir "video.ts") = none)
    (hi : i < (sortSlice segments).length)
    (hpre : ∀ t ∈ (sortSlice segments).take i, JoinStepOk env t)
    (hfail : env.decrypt ((sortSlice segments).get ⟨i, hi⟩) = .error e) :
    (sortSlice segments).Sorted (fun a b => a.SeqId ≤ b.SeqId) ∧
    (join sortSlice env dir segments).err = some e ∧
    (join sortSlice env dir segments).path = "" ∧
    (join sortSlice env dir segments).visited = (sortSlice segments).take (i + 1) ∧
    (join sortSlice env dir segments).remuxRan = false ∧
    (join sortSlice env dir segments).rawRemoved = false ∧
    (join sortSlice env dir segments).written =
      ((sortSlice segments).take i).flatMap (decrypted env) ∧
    (join sortSlice env dir segments).removed =
      ((sortSlice segments).take i).map Segment.Path := by
  obtain ⟨hloop, htake⟩ := joinLoop_fails_at env (sortSlice segments) i hi e hpre hfail
  have hjoin : join sortSlice env dir segments =
      { path := "", err := some e, created := true,
        written := ((sortSlice segments).take i).flatMap (decrypted env),
        removed := ((sortSlice segments).take i).map Segment.Path,
        visited := (sortSlice segments).take (i + 1),
        remuxRan := false, remuxOk := false, rawRemoved := false } := by
    simp only [join, hcreate, hloop, htake]
  rw [hjoin]
  exact ⟨hsort.2, rfl, rfl, rfl, rfl, rfl, rfl, rfl⟩

/-- C8 at the five segments delivered with ids 3, 1, 4, 0, 2 when Decrypt fails on
id 2, the segment at position 2 of the ascending order. -/
theorem join_decrypt_failure_keeps_earlier_output_witness :
    (insertionSortSlice shuffledSegments).Sorted (fun a b => a.SeqId ≤ b.SeqId) ∧
    (join insertionSortSlice badKeyEnv "out" shuffledSegments).err =
      some ⟨"unsupported encryption method", false⟩ ∧
    (join insertionSortSlice badKeyEnv "out" shuffledSegments).path = "" ∧
    (join insertionSortSlice badKeyEnv "out" shuffledSegments).visited =
      (insertionSortSlice shuffledSegments).take (2 + 1) ∧
    (join insertionSortSlice badKeyEnv "out" shuffledSegments).remuxRan = false ∧
    (join insertionSortSlice badKeyEnv "out" shuffledSegments).rawRemoved = false ∧
    (join insertionSortSlice badKeyEnv "out" shuffledSegments).written =
      ((insertionSortSlice shuffledSegments).take 2).flatMap (decrypted badKeyEnv) ∧
    (join insertionSortSlice badKeyEnv "out" shuffledSegments).removed =
      ((insertionSortSlice shuffledSegments).take 2).map Segment.Path :=
  join_decrypt_failure_keeps_earlier_output insertionSortSlice badKeyEnv "out"
    shuffledSegments 2 ⟨"unsupported encryption method", false⟩
    (insertionSortSlice_sorts _) rfl (by decide)
    (by
      have h : (insertionSortSlice shuffledSegments).take 2 =
          [sampleSegment 0, sampleSegment 1] := by decide
      rw [h]
      intro t ht
      simp only [List.mem_cons, List.mem_singleton, List.not_mem_nil, or_false] at ht
      rcases ht with rfl | rfl <;> exact ⟨_, rfl, rfl, rfl⟩)
    rfl

/-- The failing run of C8 spelled out: ids 0 and 1 are written and their files
removed, id 2 fails, ids 3 and 4 are never touched. -/
theorem join_decrypt_failure_example :
    (join insertionSortSlice badKeyEnv "out" shuffledSegments).written =
        [0xAA, 0, 0xAA, 1] ∧
      (join insertionSortSlice badKeyEnv "out" shuffledSegments).removed =
        ["out/seg0.ts", "out/seg1.ts"] ∧
      (join insertionSortSlice badKeyEnv "out" shuffledSegments).visited.map Segment.SeqId =
        [0, 1, 2] ∧
      (join insertionSortSlice badKeyEnv "out" shuffledSegments).path = "" := by
  decide

/-- C6. Every segment is assembled and the `ffmpeg` command fails: `join` returns
no error and keeps the raw file `out/video.ts`, but the path it returns is
`out/all.mp4`, not the path of the raw stream. -/
theorem join_remux_failure_returns_mp4_path :
    (join insertionSortSlice noFfmpegEnv "out" shuffledSegments).written =
      [0xAA, 0, 0xAA, 1, 0xAA, 2, 0xAA, 3, 0xAA, 4] ∧
    (join insertionSortSlice noFfmpegEnv "out" shuffledSegments).err = none ∧
    (join insertionSortSlice noFfmpegEnv "out" shuffledSegments).remuxRan = true ∧
    (join insertionSortSlice noFfmpegEnv "out" shuffledSegments).remuxOk = false ∧
    (join insertionSortSlice noFfmpegEnv "out" shuffledSegments).rawRemoved = false ∧
    (join insertionSortSlice noFfmpegEnv "out" shuffledSegments).path = "out/all.mp4" ∧
    (join insertionSortSlice noFfmpegEnv "out" shuffledSegments).path ≠
      filepathJoin "out" "video.ts" := by
  decide

/-- Whatever the input, a run of `join` that gets as far as the remux step returns
the path of `all.mp4`, whether or not `ffmpeg` succeeded. -/
theorem join_path_when_remux_ran
    (sortSlice : List Segment → List Segment) (env : JoinEnv) (dir : String)
    (segments : List Segment)
    (h : (join sortSlice env dir segments).remuxRan = true) :
    (join sortSlice env dir segments).path = filepathJoin dir "all.mp4" ∧
    (join sortSlice env dir segments).err = none := by
  unfold join at h ⊢
  cases hc : env.create (filepathJoin dir "video.ts") with
  | some err => simp [hc] at h
  | none =>
    simp only [hc] at h ⊢
    rcases hl : joinLoop env (sortSlice segments) ⟨[], [], []⟩ with ⟨st, _ | err⟩
    · simp only [hl] at h ⊢
      cases env.ffmpeg (filepathJoin dir "video.ts") (filepathJoin dir "all.mp4") <;> simp
    · simp [hl] at h

/-! ### The retry loop -/

theorem downloadLoop_step_ok (quit : Nat → Bool) (world : Nat → FetchWorld) (segment : Segment)
    (fuel tried : Nat) (hq : quit (tried + 1) = false)
    (h : downloadSegment (world (tried + 1)) segment = none) :
    downloadLoop quit world segment (fuel + 1) tried =
      some { fetches := tried + 1, sent := some { Err := none, SeqId := segment.SeqId },
             returned := false } := by
  simp [downloadLoop, hq, h]

theorem downloadLoop_step_fatal (quit : Nat → Bool) (world : Nat → FetchWorld)
    (segment : Segment) (fuel tried : Nat) (err : Error) (hq : quit (tried + 1) = false)
    (h : downloadSegment (world (tried + 1)) segment = some err)
    (hr : retryable err (tried + 1) = false) :
    downloadLoop quit world segment (fuel + 1) tried =
      some { fetches := tried + 1, sent := some { Err := some err, SeqId := segment.SeqId },
             returned := true } := by
  simp [downloadLoop, hq, h, hr]

theorem downloadLoop_step_retry (quit : Nat → Bool) (world : Nat → FetchWorld)
    (segment : Segment) (fuel tried : Nat) (err : Error) (hq : quit (tried + 1) = false)
    (h : downloadSegment (world (tried + 1)) segment = some err)
    (hr : retryable err (tried + 1) = true) :
    downloadLoop quit world segment (fuel + 1) tried =
      downloadLoop quit world segment fuel (tried + 1) := by
  simp [downloadLoop, hq, h, hr]

theorem retryable_third (err : Error) : retryable err 3 = false := by
  simp [retryable]

theorem retryable_of_reset {err : Error} {tried : Nat}
    (h : stringsContains err.msg "connection reset by peer" = true) (ht : tried < 3) :
    retryable err tried = true := by
  simp [retryable, h, ht]

theorem retryable_of_not_reset {err : Error} (tried : Nat)
    (h : stringsContains err.msg "connection reset by peer" = false) :
    retryable err tried = false := by
  simp [retryable, h]

/-- With cancellation never raised and fuel for three passages, the loop ends
after one, two or three fetches. -/
theorem downloadLoop_total (world : Nat → FetchWorld) (segment : Segment) (n : Nat) :
    ∃ run, downloadLoop neverQuit world segment (n + 3) 0 = some run ∧
      1 ≤ run.fetches ∧ run.fetches ≤ 3 ∧ run.sent ≠ none := by
  cases h1 : downloadSegment (world 1) segment with
  | none => exact ⟨_, downloadLoop_step_ok _ _ _ _ 0 rfl h1, by simp⟩
  | some e1 =>
    cases r1 : retryable e1 1 with
    | false => exact ⟨_, downloadLoop_step_fatal _ _ _ _ 0 e1 rfl h1 r1, by simp⟩
    | true =>
      rw [downloadLoop_step_retry _ _ _ _ 0 e1 rfl h1 r1]
      cases h2 : downloadSegment (world 2) segment with
      | none => exact ⟨_, downloadLoop_step_ok _ _ _ _ 1 rfl h2, by simp⟩
      | some e2 =>
        cases r2 : retryable e2 2 with
        | false => exact ⟨_, downloadLoop_step_fatal _ _ _ _ 1 e2 rfl h2 r2, by simp⟩
        | true =>
          rw [downloadLoop_step_retry _ _ _ _ 1 e2 rfl h2 r2]
          cases h3 : downloadSegment (world 3) segment with
          | none => exact ⟨_, downloadLoop_step_ok _ _ _ _ 2 rfl h3, by simp⟩
          | some e3 =>
            exact ⟨_, downloadLoop_step_fatal _ _ _ _ 2 e3 rfl h3 (retryable_third e3), by simp⟩

theorem downloadLoop_retry_of_reset (world : Nat → FetchWorld) (segment : Segment)
    (fuel tried : Nat) (ht : tried + 1 < 3) (h : ResetFault world segment (tried + 1)) :
    downloadLoop neverQuit world segment (fuel + 1) tried =
      downloadLoop neverQuit world segment fuel (tried + 1) := by
  obtain ⟨err, he, hc⟩ := h
  exact downloadLoop_step_retry _ _ _ _ _ err rfl he (retryable_of_reset hc ht)

theorem downloadLoop_third (world : Nat → FetchWorld) (segment : Segment) (fuel : Nat) :
    downloadLoop neverQuit world segment (fuel + 1) 2 =
      some { fetches := 3,
             sent := some { Err := downloadSegment (world 3) segment, SeqId := segment.SeqId },
             returned := (downloadSegment (world 3) segment).isSome } := by
  cases h3 : downloadSegment (world 3) segment with
  | none => simpa using downloadLoop_step_ok neverQuit world segment fuel 2 rfl h3
  | some e3 =>
    simpa using
      downloadLoop_step_fatal neverQuit world segment fuel 2 e3 rfl h3 (retryable_third e3)

/-- C3. Cancellation not raised: for every segment and every behaviour of the
network the worker ends the segment after at most 3 fetch attempts (any fuel of
3 or more passages is enough); an attempt that fails with a "connection reset
by peer" fault while fewer than 3 attempts were made is followed by another
attempt; two such failures and a successful third attempt give a success result
for the sequence id of the segment, after which the worker goes on; two such
failures and a failing third attempt give the third error as a fatal result
after exactly 3 attempts, and the worker returns. -/
theorem worker_retries_up_to_three_attempts
    (world : Nat → FetchWorld) (segment : Segment) (n : Nat) :
    ∃ run, downloadLoop neverQuit world segment (n + 3) 0 = some run ∧
      run.fetches ≤ 3 ∧
      (ResetFault world segment 1 → 2 ≤ run.fetches) ∧
      (ResetFault world segment 1 → ResetFault world segment 2 → run.fetches = 3) ∧
      (ResetFault world segment 1 → ResetFault world segment 2 →
        downloadSegment (world 3) segment = none →
        run = { fetches := 3, sent := some { Err := none, SeqId := segment.SeqId },
                returned := false }) ∧
      (ResetFault world segment 1 → ResetFault world segment 2 →
        ∀ e3, downloadSegment (world 3) segment = some e3 →
        run = { fetches := 3, sent := some { Err := some e3, SeqId := segment.SeqId },
                returned := true }) := by
  obtain ⟨run, hrun, h1, h3, -⟩ := downloadLoop_total world segment n
  have key : ResetFault world segment 1 → ResetFault world segment 2 →
      run = { fetches := 3,
              sent := some { Err := downloadSegment (world 3) segment, SeqId := segment.SeqId },
              returned := (downloadSegment (world 3) segment).isSome } := by
    intro r1 r2
    rw [downloadLoop_retry_of_reset world segment (n + 2) 0 (by decide) r1,
      downloadLoop_retry_of_reset world segment (n + 1) 1 (by decide) r2,
      downloadLoop_third] at hrun
    exact (Option.some.inj hrun).symm
  refine ⟨run, hrun, h3, ?_, ?_, ?_, ?_⟩
  · intro r1
    rw [downloadLoop_retry_of_reset world segment (n + 2) 0 (by decide) r1] at hrun
    cases h2 : downloadSegment (world 2) segment with
    | none =>
      rw [downloadLoop_step_ok _ _ _ _ 1 rfl h2] at hrun
      rw [← Option.some.inj hrun]
    | some e2 =>
      cases r2 : retryable e2 2 with
      | false =>
        rw [downloadLoop_step_fatal _ _ _ _ 1 e2 rfl h2 r2] at hrun
        rw [← Option.some.inj hrun]
      | true =>
        rw [downloadLoop_step_retry _ _ _ _ 1 e2 rfl h2 r2, downloadLoop_third] at hrun
        rw [← Option.some.inj hrun]
        exact Nat.le_succ 2
  · intro r1 r2
    rw [key r1 r2]
  · intro r1 r2 h
    rw [key r1 r2, h]
    rfl
  · intro r1 r2 e3 h
    rw [key r1 r2, h]
    rfl

/-- C3 at a segment whose first two attempts meet a reset connection and whose
third attempt succeeds. -/
theorem worker_retries_up_to_three_attempts_witness :
    ∃ run, downloadLoop neverQuit twoResetsThenOk (sampleSegment 7) (0 + 3) 0 = some run ∧
      run.fetches ≤ 3 ∧
      (ResetFault twoResetsThenOk (sampleSegment 7) 1 → 2 ≤ run.fetches) ∧
      (ResetFault twoResetsThenOk (sampleSegment 7) 1 →
        ResetFault twoResetsThenOk (sampleSegment 7) 2 → run.fetches = 3) ∧
      (ResetFault twoResetsThenOk (sampleSegment 7) 1 →
        ResetFault twoResetsThenOk (sampleSegment 7) 2 →
        downloadSegment (twoResetsThenOk 3) (sampleSegment 7) = none →
        run = { fetches := 3, sent := some { Err := none, SeqId := (sampleSegment 7).SeqId },
                returned := false }) ∧
      (ResetFault twoResetsThenOk (sampleSegment 7) 1 →
        ResetFault twoResetsThenOk (sampleSegment 7) 2 →
        ∀ e3, downloadSegment (twoResetsThenOk 3) (sampleSegment 7) = some e3 →
        run = { fetches := 3, sent := some { Err := some e3, SeqId := (sampleSegment 7).SeqId },
                returned := true }) :=
  worker_retries_up_to_three_attempts twoResetsThenOk (sampleSegment 7) 0

/-- The two runs the claim C3 names, evaluated: two resets and a success, and
three resets (with fuel for ten passages, no fourth attempt is made). -/
theorem worker_retry_examples :
    ResetFault twoResetsThenOk (sampleSegment 7) 1 ∧
    ResetFault twoResetsThenOk (sampleSegment 7) 2 ∧
    downloadLoop neverQuit twoResetsThenOk (sampleSegment 7) 3 0 =
      some { fetches := 3, sent := some { Err := none, SeqId := 7 }, returned := false } ∧
    downloadLoop neverQuit alwaysReset (sampleSegment 7) 10 0 =
      some { fetches := 3, sent := some { Err := some resetError, SeqId := 7 },
             returned := true } := by
  refine ⟨⟨resetError, rfl, by decide⟩, ⟨resetError, rfl, by decide⟩, by decide, by decide⟩

/-- The attempts before attempt `k + 1` met reset faults and attempt `k + 1` fails
with an error the retry condition rejects: the loop ends there with a fatal
result. -/
theorem downloadLoop_fatal_at (world : Nat → FetchWorld) (segment : Segment) (n k : Nat)
    (err : Error) (hk : k < 3)
    (hprev : ∀ t, 1 ≤ t → t ≤ k → ResetFault world segment t)
    (herr : downloadSegment (world (k + 1)) segment = some err)
    (hr : retryable err (k + 1) = false) :
    downloadLoop neverQuit world segment (n + 3) 0 =
      some { fetches := k + 1, sent := some { Err := some err, SeqId := segment.SeqId },
             returned := true } := by
  match k, hk with
  | 0, _ => exact downloadLoop_step_fatal _ _ _ _ 0 err rfl herr hr
  | 1, _ =>
    rw [downloadLoop_retry_of_reset world segment (n + 2) 0 (by decide)
      (hprev 1 (le_refl _) (le_refl _))]
    exact downloadLoop_step_fatal _ _ _ _ 1 err rfl herr hr
  | 2, _ =>
    rw [downloadLoop_retry_of_reset world segment (n + 2) 0 (by decide)
      (hprev 1 (le_refl _) (by decide)),
      downloadLoop_retry_of_reset world segment (n + 1) 1 (by decide)
      (hprev 2 (by decide) (le_refl _))]
    exact downloadLoop_step_fatal _ _ _ _ 2 err rfl herr hr

/-- C4, as stated, fails: the first attempt runs into the client timeout (an
error whose `Timeout()` is true) and the worker, with cancellation not raised,
reports it as fatal after that single attempt instead of retrying. -/
theorem timeout_is_not_retried :
    timeoutError.timeout = true ∧
    downloadSegment (alwaysTimeout 1) (sampleSegment 7) = some timeoutError ∧
    downloadLoop neverQuit alwaysTimeout (sampleSegment 7) 3 0 =
      some { fetches := 1, sent := some { Err := some timeoutError, SeqId := 7 },
             returned := true } := by
  decide

/-- C4, amended. The first attempt, or the second attempt after a first
"connection reset by peer" fault, fails with a timeout error whose text does not
contain "connection reset by peer": the worker does not retry, it reports that
error as a fatal result after that attempt and returns. -/
theorem timeout_without_reset_text_is_fatal
    (world : Nat → FetchWorld) (segment : Segment) (n k : Nat) (err : Error)
    (hk : k < 2)
    (hprev : ∀ t, 1 ≤ t → t ≤ k → ResetFault world segment t)
    (herr : downloadSegment (world (k + 1)) segment = some err)
    (htimeout : err.timeout = true)
    (htext : stringsContains err.msg "connection reset by peer" = false) :
    err.timeout = true ∧
    downloadLoop neverQuit world segment (n + 3) 0 =
      some { fetches := k + 1, sent := some { Err := some err, SeqId := segment.SeqId },
             returned := true } :=
  ⟨htimeout, downloadLoop_fatal_at world segment n k err (Nat.lt_succ_of_lt hk) hprev herr
    (retryable_of_not_reset _ htext)⟩

/-- C4, amended, at a segment whose first attempt runs into the client timeout. -/
theorem timeout_without_reset_text_is_fatal_witness :
    timeoutError.timeout = true ∧
    downloadLoop neverQuit alwaysTimeout (sampleSegment 7) (0 + 3) 0 =
      some { fetches := 0 + 1,
             sent := some { Err := some timeoutError, SeqId := (sampleSegment 7).SeqId },
             returned := true } :=
  timeout_without_reset_text_is_fatal alwaysTimeout (sampleSegment 7) 0 0 timeoutError
    (by decide) (fun t h1 h0 => absurd (Nat.le_trans h1 h0) (by decide)) rfl rfl (by decide)

/-- C5, as stated, fails: the server answers 503 with the reason phrase
"connection reset by peer"; the worker retries and, the second attempt
succeeding, reports success after two fetch attempts. -/
theorem status_with_reset_phrase_is_retried :
    (resetPhraseThenOk 1).get (sampleSegment 7).URI =
      .ok ⟨503, "503 connection reset by peer", []⟩ ∧
    downloadSegment (resetPhraseThenOk 1) (sampleSegment 7) =
      some (errorsNew "503 connection reset by peer") ∧
    downloadLoop neverQuit resetPhraseThenOk (sampleSegment 7) 3 0 =
      some { fetches := 2, sent := some { Err := none, SeqId := 7 }, returned := false } := by
  refine ⟨rfl, by decide, by decide⟩

/-- C5, amended. A fetch attempt (the first, or a later one reached through
"connection reset by peer" faults) returns a response whose status code is not
200 and whose status text does not contain "connection reset by peer": the
worker makes no further attempt, it reports the error made of the status text
as a fatal result and returns; when the attempt is the first one, exactly one
fetch attempt is made. -/
theorem non_success_status_is_fatal
    (world : Nat → FetchWorld) (segment : Segment) (n k : Nat) (res : Response)
    (hk : k < 3)
    (hprev : ∀ t, 1 ≤ t → t ≤ k → ResetFault world segment t)
    (hget : (world (k + 1)).get segment.URI = .ok res)
    (hcode : res.StatusCode ≠ 200)
    (htext : stringsContains res.Status "connection reset by peer" = false) :
    downloadLoop neverQuit world segment (n + 3) 0 =
      some { fetches := k + 1,
             sent := some { Err := some (errorsNew res.Status), SeqId := segment.SeqId },
             returned := true } := by
  have herr : downloadSegment (world (k + 1)) segment = some (errorsNew res.Status) := by
    simp [downloadSegment, hget, hcode]
  exact downloadLoop_fatal_at world segment n k _ hk hprev herr
    (retryable_of_not_reset _ (by simpa [errorsNew] using htext))

/-- C5, amended, at a segment whose first attempt is answered with 404. -/
theorem non_success_status_is_fatal_witness :
    downloadLoop neverQuit alwaysNotFound (sampleSegment 7) (0 + 3) 0 =
      some { fetches := 0 + 1,
             sent := some { Err := some (errorsNew "404 Not Found"),
                            SeqId := (sampleSegment 7).SeqId },
             returned := true } :=
  non_success_status_is_fatal alwaysNotFound (sampleSegment 7) 0 0 ⟨404, "404 Not Found", []⟩
    (by decide) (fun t h1 h0 => absurd (Nat.le_trans h1 h0) (by decide)) rfl (by decide)
    (by decide)

/-! ### `downloadSegments` -/

/-- C2. One worker, one segment, the fetch answers 404: after the worker has
sent its fatal result and ended and the waiter has filled `finishedChan`, both
cases of the collector's `select` are ready. Taking the result returns the
error; taking `finishedChan` makes `downloadSegments` return nil although a
fatal result was sent and still sits in `downloadResultChan`. -/
theorem downloadSegments_may_return_nil_after_fatal :
    oneNotFound.workers = 1 ∧ oneNotFound.segments.length = 1 ∧
    (run oneNotFound (State.init oneNotFound)
        (raceSchedule ++ [.collectResult, .collectorClose])).map State.collector =
      some (.returned (some (errorsNew "404 Not Found"))) ∧
    (run oneNotFound (State.init oneNotFound)
        (raceSchedule ++ [.collectFinished])).map State.collector =
      some (.returned none) ∧
    (run oneNotFound (State.init oneNotFound)
        (raceSchedule ++ [.collectFinished])).map State.sent =
      some [⟨some (errorsNew "404 Not Found"), 0⟩] ∧
    (run oneNotFound (State.init oneNotFound)
        (raceSchedule ++ [.collectFinished])).map State.results =
      some [⟨some (errorsNew "404 Not Found"), 0⟩] := by
  decide

/-- C7, as stated, fails: worker 1 passes its cancellation check before the
collector closes `quitChan` and starts its fetch of segment 1 after the close. -/
theorem fetch_started_after_cancellation :
    (run twoSegments (State.init twoSegments)
        (lateCheckPrefix ++ [.collectorClose])).map State.quitClosed = some true ∧
    (run twoSegments (State.init twoSegments)
        (lateCheckPrefix ++ [.collectorClose])).map State.fetchLog =
      some [⟨0, 0, 1, false⟩] ∧
    (run twoSegments (State.init twoSegments)
        (lateCheckPrefix ++ [.collectorClose, .worker 1])).map State.fetchLog =
      some [⟨0, 0, 1, false⟩, ⟨1, 1, 1, true⟩] := by
  decide

theorem run_append (cfg : Config) (s : State) (a b : List Action) :
    run cfg s (a ++ b) = (run cfg s a).bind (fun s' => run cfg s' b) := by
  induction a generalizing s with
  | nil => rfl
  | cons x a ih =>
    simp only [List.cons_append, run]
    cases step cfg s x with
    | none => rfl
    | some s' => exact ih s'

/-- What a transition of a worker does to the position list, the fetch record
and the close flag of `quitChan`. -/
theorem workerStep_effect (cfg : Config) (s s' : State) (j : Nat) (pc : WorkerPc)
    (hpc : s.workers[j]? = some pc) (h : workerStep cfg s j pc = some s') :
    s'.quitClosed = s.quitClosed ∧ s'.collector = s.collector ∧
    ((∃ seg t, s.workers[j]? = some (.fetch seg t) ∧
        s'.workers = s.workers.set j (.fetching seg t) ∧
        s'.fetchLog = s.fetchLog ++ [⟨j, seg.SeqId, t, s.quitClosed⟩]) ∨
     (∃ pc', s'.workers = s.workers.set j pc' ∧ s'.fetchLog = s.fetchLog ∧
        (awaitingFetch (some pc') = 0 ∨ s.quitClosed = false))) := by
  cases pc with
  | recv =>
    simp only [workerStep] at h
    split at h
    · cases h; exact ⟨rfl, rfl, Or.inr ⟨_, rfl, rfl, Or.inl rfl⟩⟩
    · cases h
  | check seg t =>
    simp only [workerStep] at h
    split at h
    · cases h; exact ⟨rfl, rfl, Or.inr ⟨_, rfl, rfl, Or.inl rfl⟩⟩
    · rename_i hq
      cases h
      exact ⟨rfl, rfl, Or.inr ⟨_, rfl, rfl, Or.inr (by simpa using hq)⟩⟩
  | fetch seg t =>
    simp only [workerStep] at h
    cases h
    exact ⟨rfl, rfl, Or.inl ⟨seg, t, hpc, rfl, rfl⟩⟩
  | fetching seg t =>
    simp only [workerStep] at h
    split at h
    · split at h
      · cases h; exact ⟨rfl, rfl, Or.inr ⟨_, rfl, rfl, Or.inl rfl⟩⟩
      · cases h; exact ⟨rfl, rfl, Or.inr ⟨_, rfl, rfl, Or.inl rfl⟩⟩
    · cases h; exact ⟨rfl, rfl, Or.inr ⟨_, rfl, rfl, Or.inl rfl⟩⟩
  | sendOk seg =>
    simp only [workerStep] at h
    split at h
    · cases h; exact ⟨rfl, rfl, Or.inr ⟨_, rfl, rfl, Or.inl rfl⟩⟩
    · cases h
  | sendErr seg err =>
    simp only [workerStep] at h
    split at h
    · cases h; exact ⟨rfl, rfl, Or.inr ⟨_, rfl, rfl, Or.inl rfl⟩⟩
    · cases h
  | exiting =>
    simp only [workerStep] at h
    cases h; exact ⟨rfl, rfl, Or.inr ⟨_, rfl, rfl, Or.inl rfl⟩⟩
  | done => simp [workerStep] at h

/-- What any transition does to the close flag, the collector, the positions
of the workers and the fetch record. -/
theorem step_effect (cfg : Config) (s s' : State) (a : Action)
    (h : step cfg s a = some s') :
    (a = .collectorClose ∧ (∃ e, s.collector = .closing e) ∧
        (∃ e, s'.collector = .returned e) ∧ s'.quitClosed = true ∧
        s'.workers = s.workers ∧ s'.fetchLog = s.fetchLog) ∨
    (a ≠ .collectorClose ∧ s'.quitClosed = s.quitClosed ∧
        (s'.collector = s.collector ∨ s.collector = .select) ∧ WorkerEffect s s') := by
  cases a with
  | handoff i =>
    right
    simp only [step] at h
    split at h
    · cases h
      exact ⟨by simp, rfl, Or.inl rfl, Or.inr (Or.inl ⟨i, _, rfl, rfl, Or.inl rfl⟩)⟩
    · cases h
  | feederQuit =>
    right
    simp only [step] at h
    split at h
    · split at h
      · cases h; exact ⟨by simp, rfl, Or.inl rfl, Or.inr (Or.inr ⟨rfl, rfl⟩)⟩
      · cases h
    · cases h
  | feederClose =>
    right
    simp only [step] at h
    split at h
    · cases h; exact ⟨by simp, rfl, Or.inl rfl, Or.inr (Or.inr ⟨rfl, rfl⟩)⟩
    · cases h; exact ⟨by simp, rfl, Or.inl rfl, Or.inr (Or.inr ⟨rfl, rfl⟩)⟩
    · cases h
  | worker i =>
    right
    simp only [step] at h
    split at h
    · rename_i pc hpc
      obtain ⟨hq, hc, he⟩ := workerStep_effect cfg s s' i pc hpc h
      refine ⟨by simp, hq, Or.inl hc, ?_⟩
      rcases he with ⟨seg, t, h1, h2, h3⟩ | ⟨pc', h1, h2, h3⟩
      · exact Or.inl ⟨i, seg, t, h1, h2, h3⟩
      · exact Or.inr (Or.inl ⟨i, pc', h1, h2, h3⟩)
    · cases h
  | waiter =>
    right
    simp only [step] at h
    split at h
    · split at h
      · cases h; exact ⟨by simp, rfl, Or.inl rfl, Or.inr (Or.inr ⟨rfl, rfl⟩)⟩
      · cases h
    · cases h; exact ⟨by simp, rfl, Or.inl rfl, Or.inr (Or.inr ⟨rfl, rfl⟩)⟩
    · cases h
  | collectFinished =>
    right
    simp only [step] at h
    split at h
    · rename_i hc
      split at h
      · cases h; exact ⟨by simp, rfl, Or.inr hc, Or.inr (Or.inr ⟨rfl, rfl⟩)⟩
      · cases h
    · cases h
  | collectResult =>
    right
    simp only [step] at h
    split at h
    · rename_i hc hr
      split at h
      · cases h; exact ⟨by simp, rfl, Or.inr hc, Or.inr (Or.inr ⟨rfl, rfl⟩)⟩
      · cases h; exact ⟨by simp, rfl, Or.inr hc, Or.inr (Or.inr ⟨rfl, rfl⟩)⟩
    · cases h
  | collectorClose =>
    left
    simp only [step] at h
    split at h
    · rename_i e hc
      cases h
      exact ⟨rfl, ⟨e, hc⟩, ⟨_, rfl⟩, rfl, rfl, rfl⟩
    · cases h

theorem closeConsistent_init (cfg : Config) : CloseConsistent (State.init cfg) := by
  constructor
  · intro h; simp [State.init] at h
  · intro _ f hf; simp [State.init] at hf

theorem closeConsistent_step (cfg : Config) (s s' : State) (a : Action)
    (h : step cfg s a = some s') (hs : CloseConsistent s) : CloseConsistent s' := by
  rcases step_effect cfg s s' a h with ⟨-, -, hret, hq, -, -⟩ | ⟨-, hq, hc, hw⟩
  · exact ⟨fun _ => hret, fun hf => by rw [hq] at hf; cases hf⟩
  · constructor
    · intro hq'
      obtain ⟨e, he⟩ := hs.1 (hq ▸ hq')
      rcases hc with hc | hc
      · exact ⟨e, hc.trans he⟩
      · rw [he] at hc; cases hc
    · intro hq' f hf
      have hqs : s.quitClosed = false := hq ▸ hq'
      rcases hw with ⟨j, seg, t, -, -, hlog⟩ | ⟨j, pc', -, hlog, -⟩ | ⟨-, hlog⟩
      · rw [hlog, List.mem_append, List.mem_singleton] at hf
        rcases hf with hf | rfl
        · exact hs.2 hqs f hf
        · exact hqs
      · exact hs.2 hqs f (hlog ▸ hf)
      · exact hs.2 hqs f (hlog ▸ hf)

theorem closeConsistent_run (cfg : Config) (schedule : List Action) (s s' : State)
    (h : run cfg s schedule = some s') (hs : CloseConsistent s) : CloseConsistent s' := by
  induction schedule generalizing s with
  | nil => simp only [run] at h; cases h; exact hs
  | cons a rest ih =>
    simp only [run] at h
    cases hstep : step cfg s a with
    | none => simp [hstep] at h
    | some s₁ =>
      simp only [hstep] at h
      exact ih s₁ h (closeConsistent_step cfg s s₁ a hstep hs)

theorem awaitingFetch_set_le (l : List WorkerPc) (j i : Nat) (pc : WorkerPc)
    (hpc : awaitingFetch (some pc) = 0) :
    awaitingFetch (l.set j pc)[i]? ≤ awaitingFetch l[i]? := by
  rw [List.getElem?_set]
  split
  · split
    · rw [hpc]; exact Nat.zero_le _
    · exact Nat.zero_le _
  · exact le_refl _

theorem afterClose_step (cfg : Config) (base s s' : State) (a : Action)
    (h : step cfg s a = some s') (hc : CloseConsistent s) (hs : AfterClose base s) :
    AfterClose base s' := by
  obtain ⟨hq, hbound⟩ := hs
  rcases step_effect cfg s s' a h with ⟨-, ⟨e, he⟩, -, -, -, -⟩ | ⟨-, hq', -, hw⟩
  · obtain ⟨e', he'⟩ := hc.1 hq
    rw [he] at he'; cases he'
  · refine ⟨hq'.trans hq, fun i => ?_⟩
    rcases hw with ⟨j, seg, t, hj, hwk, hlog⟩ | ⟨j, pc', hwk, hlog, hz⟩ | ⟨hwk, hlog⟩
    · have hb := hbound i
      by_cases hij : j = i
      · subst hij
        have hlt : j < s.workers.length := by
          rcases Nat.lt_or_ge j s.workers.length with hlt | hge
          · exact hlt
          · rw [List.getElem?_eq_none hge] at hj; cases hj
        have hnew : awaitingFetch (s.workers.set j (.fetching seg t))[j]? = 0 := by
          rw [List.getElem?_set]; simp [hlt, awaitingFetch]
        have hold : awaitingFetch s.workers[j]? = 1 := by rw [hj]; rfl
        have hcount : startedAfterQuit s' j = startedAfterQuit s j + 1 := by
          simp [startedAfterQuit, hlog, hq, List.countP_append]
        rw [hwk, hnew, hcount]
        rw [hold] at hb
        exact hb
      · have hnew : (s.workers.set j (.fetching seg t))[i]? = s.workers[i]? :=
          List.getElem?_set_ne hij
        have hcount : startedAfterQuit s' i = startedAfterQuit s i := by
          simp [startedAfterQuit, hlog, hq, List.countP_append, hij]
        rw [hwk, hnew, hcount]
        exact hb
    · have hz' : awaitingFetch (some pc') = 0 := by
        rcases hz with hz | hz
        · exact hz
        · rw [hq] at hz; cases hz
      have hcount : startedAfterQuit s' i = startedAfterQuit s i := by
        simp [startedAfterQuit, hlog]
      rw [hwk, hcount]
      exact le_trans (Nat.add_le_add_left (awaitingFetch_set_le _ j i pc' hz') _) (hbound i)
    · have hcount : startedAfterQuit s' i = startedAfterQuit s i := by
        simp [startedAfterQuit, hlog]
      rw [hwk, hcount]
      exact hbound i

theorem afterClose_run (cfg : Config) (base : State) (schedule : List Action) (s s' : State)
    (h : run cfg s schedule = some s') (hc : CloseConsistent s) (hs : AfterClose base s) :
    AfterClose base s' := by
  induction schedule generalizing s with
  | nil => simp only [run] at h; cases h; exact hs
  | cons a rest ih =>
    simp only [run] at h
    cases hstep : step cfg s a with
    | none => simp [hstep] at h
    | some s₁ =>
      simp only [hstep] at h
      exact ih s₁ h (closeConsistent_step cfg s s₁ a hstep hc)
        (afterClose_step cfg base s s₁ a hstep hc hs)

theorem awaitingFetch_le_one (pc : Option WorkerPc) : awaitingFetch pc ≤ 1 := by
  unfold awaitingFetch
  split <;> simp

/-- C7, amended. In every interleaving: let `atClose` be the state in which the
collector closes `quitChan` and `final` any state reached afterwards. Then a
worker has started, after the close, at most one fetch, and none unless at the
close it had already passed its cancellation check for that attempt and not
yet started the fetch; before the close no fetch counts as started after it. -/
theorem fetch_after_cancellation_only_if_check_passed
    (cfg : Config) (before later : List Action) (atClose final : State)
    (hbefore : run cfg (State.init cfg) before = some atClose)
    (hlater : run cfg atClose (Action.collectorClose :: later) = some final) :
    atClose.quitClosed = false ∧ final.quitClosed = true ∧
    (∀ i, startedAfterQuit atClose i = 0) ∧
    (∀ i, startedAfterQuit final i ≤ awaitingFetch atClose.workers[i]?) ∧
    (∀ i, startedAfterQuit final i ≤ 1) := by
  have hc := closeConsistent_run cfg before _ _ hbefore (closeConsistent_init cfg)
  simp only [run] at hlater
  cases hstep : step cfg atClose .collectorClose with
  | none => simp [hstep] at hlater
  | some s₁ =>
    simp only [hstep] at hlater
    rcases step_effect cfg atClose s₁ _ hstep with ⟨-, ⟨e, he⟩, -, hq₁, hwk, hlog⟩ | ⟨hne, -⟩
    · have hq : atClose.quitClosed = false := by
        cases hqc : atClose.quitClosed with
        | false => rfl
        | true =>
          obtain ⟨e', he'⟩ := hc.1 hqc
          rw [he] at he'; cases he'
      have hzero : ∀ i, startedAfterQuit atClose i = 0 := by
        intro i
        simp only [startedAfterQuit, List.countP_eq_zero]
        intro f hf
        simp [hc.2 hq f hf]
      have hbase : AfterClose atClose s₁ := by
        refine ⟨hq₁, fun i => ?_⟩
        have : startedAfterQuit s₁ i = startedAfterQuit atClose i := by
          simp [startedAfterQuit, hlog]
        rw [this, hzero i, hwk, Nat.zero_add]
      have hfinal := afterClose_run cfg atClose later s₁ final hlater
        (closeConsistent_step cfg _ _ _ hstep hc) hbase
      refine ⟨hq, hfinal.1, hzero, fun i => ?_, fun i => ?_⟩
      · exact le_trans (Nat.le_add_right _ _) (hfinal.2 i)
      · exact le_trans (le_trans (Nat.le_add_right _ _) (hfinal.2 i)) (awaitingFetch_le_one _)
    · exact absurd rfl hne

/-- C7, amended, at the run of two workers in which worker 1 passes its check
before the close and fetches after it: that one fetch is the only one started
after the close. -/
theorem fetch_after_cancellation_only_if_check_passed_witness :
    run twoSegments (State.init twoSegments) lateCheckPrefix = some lateCheckState ∧
    run twoSegments lateCheckState [Action.collectorClose, .worker 1, .worker 0] =
      some lateFetchState ∧
    startedAfterQuit lateFetchState 1 = 1 ∧
    (lateCheckState.quitClosed = false ∧ lateFetchState.quitClosed = true ∧
      (∀ i, startedAfterQuit lateCheckState i = 0) ∧
      (∀ i, startedAfterQuit lateFetchState i ≤ awaitingFetch lateCheckState.workers[i]?) ∧
      (∀ i, startedAfterQuit lateFetchState i ≤ 1)) :=
  ⟨by decide, by decide, by decide,
    fetch_after_cancellation_only_if_check_passed twoSegments lateCheckPrefix
      [.worker 1, .worker 0] lateCheckState lateFetchState (by decide) (by decide)⟩

/-! ### Choice of the variant -/

/-- A `uint32` below 2^(intBits - 1) keeps its value in the conversion to `int`. -/
theorem intOfUint32_eq {intBits b : Nat} (h : b < 2 ^ 32) (hfit : b < 2 ^ (intBits - 1)) :
    intOfUint32 intBits b = (b : Int) := by
  have hle : 2 ^ (intBits - 1) ≤ 2 ^ intBits :=
    Nat.pow_le_pow_right (by decide) (Nat.sub_le _ _)
  have h2 : b % 2 ^ 32 % 2 ^ intBits = b := by
    rw [Nat.mod_eq_of_lt h, Nat.mod_eq_of_lt (Nat.lt_of_lt_of_le hfit hle)]
  simp only [intOfUint32, h2, hfit, if_true]
  rfl

theorem collectVariants_fst (intBits : Nat) (vs : List Variant) (acc : List Int × VariantMap) :
    (collectVariants intBits vs acc).1 =
      acc.1 ++ vs.map (fun v => intOfUint32 intBits v.Bandwidth) := by
  induction vs generalizing acc with
  | nil => simp [collectVariants]
  | cons v rest ih =>
    obtain ⟨bw, m⟩ := acc
    simp [collectVariants, ih]

/-- Variants of other bandwidths leave the entry of the map alone. -/
theorem collectVariants_frame (intBits : Nat) (vs : List Variant) (acc : List Int × VariantMap)
    (k : Int) (h : ∀ v ∈ vs, intOfUint32 intBits v.Bandwidth ≠ k) :
    (collectVariants intBits vs acc).2 k = acc.2 k := by
  induction vs generalizing acc with
  | nil => rfl
  | cons v rest ih =>
    obtain ⟨bw, m⟩ := acc
    simp only [collectVariants]
    rw [ih _ (fun u hu => h u (List.mem_cons_of_mem _ hu))]
    have hv : k ≠ intOfUint32 intBits v.Bandwidth :=
      fun e => h v (List.mem_cons_self _ _) e.symm
    simp [VariantMap.set, hv]

/-- The map ends up holding, for a key that occurs, the last variant with that
key. -/
theorem collectVariants_last (intBits : Nat) (vs : List Variant) (acc : List Int × VariantMap)
    (k : Int) (h : ∃ v ∈ vs, intOfUint32 intBits v.Bandwidth = k) :
    ∃ pre best post, vs = pre ++ best :: post ∧ intOfUint32 intBits best.Bandwidth = k ∧
      (∀ v ∈ post, intOfUint32 intBits v.Bandwidth ≠ k) ∧
      (collectVariants intBits vs acc).2 k = some best := by
  induction vs generalizing acc with
  | nil => obtain ⟨v, hv, -⟩ := h; cases hv
  | cons v rest ih =>
    obtain ⟨bw, m⟩ := acc
    by_cases hrest : ∃ u ∈ rest, intOfUint32 intBits u.Bandwidth = k
    · obtain ⟨pre, best, post, hsplit, hk, hpost, hm⟩ := ih
        (bw ++ [intOfUint32 intBits v.Bandwidth],
          m.set (intOfUint32 intBits v.Bandwidth) v) hrest
      exact ⟨v :: pre, best, post, by rw [hsplit]; rfl, hk, hpost,
        by simpa [collectVariants] using hm⟩
    · have hnone : ∀ u ∈ rest, intOfUint32 intBits u.Bandwidth ≠ k :=
        fun u hu e => hrest ⟨u, hu, e⟩
      have hv : intOfUint32 intBits v.Bandwidth = k := by
        obtain ⟨u, hu, e⟩ := h
        rcases List.mem_cons.mp hu with rfl | hu'
        · exact e
        · exact absurd e (hnone u hu')
      refine ⟨[], v, rest, rfl, hv, hnone, ?_⟩
      simp only [collectVariants]
      rw [collectVariants_frame intBits rest _ k hnone]
      simp [VariantMap.set, hv]

/-- The first element of the sorted slice is one of the integers and no integer
of the slice exceeds it. -/
theorem sortReverse_head (l : List Int) (top : Int) (tail : List Int)
    (h : sortReverse l = top :: tail) : top ∈ l ∧ ∀ x ∈ l, x ≤ top := by
  haveI : IsTotal Int (fun a b => b ≤ a) := ⟨fun a b => le_total b a⟩
  haveI : IsTrans Int (fun a b => b ≤ a) := ⟨fun _ _ _ h₁ h₂ => le_trans h₂ h₁⟩
  have hperm : (sortReverse l).Perm l := List.perm_insertionSort _ _
  have hsorted : (sortReverse l).Sorted (fun a b => b ≤ a) := List.sorted_insertionSort _ _
  rw [h] at hperm hsorted
  refine ⟨hperm.subset (List.mem_cons_self _ _), fun x hx => ?_⟩
  rcases List.mem_cons.mp (hperm.symm.subset hx) with rfl | hx'
  · exact le_refl _
  · exact List.rel_of_sorted_cons hsorted x hx'

theorem sortReverse_ne_nil (l : List Int) (h : l ≠ []) : sortReverse l ≠ [] := by
  intro hnil
  have hperm : (sortReverse l).Perm l := List.perm_insertionSort _ _
  rw [hnil] at hperm
  exact h hperm.symm.eq_nil

/-- The variant chosen among a non-empty list of variants whose `uint32`
bandwidths keep their value in the conversion to `int`: it occurs in the list,
no variant has a higher bandwidth, and every variant after its position has a
strictly lower one. -/
theorem bestVariant_spec (intBits : Nat) (variants : List Variant) (hne : variants ≠ [])
    (hu32 : ∀ v ∈ variants, v.Bandwidth < 2 ^ 32)
    (hfit : ∀ v ∈ variants, v.Bandwidth < 2 ^ (intBits - 1)) :
    ∃ best pre post, bestVariant intBits variants = some best ∧
      variants = pre ++ best :: post ∧
      (∀ v ∈ variants, v.Bandwidth ≤ best.Bandwidth) ∧
      (∀ v ∈ post, v.Bandwidth < best.Bandwidth) := by
  have hfst := collectVariants_fst intBits variants ([], fun _ => none)
  simp only [List.nil_append] at hfst
  have hkeys : variants.map (fun v => intOfUint32 intBits v.Bandwidth) ≠ [] := by
    simpa using hne
  cases hsort : sortReverse (variants.map (fun v => intOfUint32 intBits v.Bandwidth)) with
  | nil => exact absurd hsort (sortReverse_ne_nil _ hkeys)
  | cons top tail =>
    obtain ⟨hmem, hmax⟩ := sortReverse_head _ top tail hsort
    obtain ⟨w, hw, hwk⟩ := List.mem_map.mp hmem
    obtain ⟨pre, best, post, hsplit, hk, hpost, hm⟩ :=
      collectVariants_last intBits variants ([], fun _ => none) top ⟨w, hw, hwk⟩
    have hbest : best ∈ variants := by rw [hsplit]; simp
    have hle : ∀ v ∈ variants, v.Bandwidth ≤ best.Bandwidth := by
      intro v hv
      have h1 := hmax _ (List.mem_map.mpr ⟨v, hv, rfl⟩)
      rw [← hk, intOfUint32_eq (hu32 v hv) (hfit v hv),
        intOfUint32_eq (hu32 best hbest) (hfit best hbest)] at h1
      exact Int.ofNat_le.mp h1
    refine ⟨best, pre, post, ?_, hsplit, hle, ?_⟩
    · unfold bestVariant
      rcases hcv : collectVariants intBits variants ([], fun _ => none) with
        ⟨allBw, allResolutions⟩
      rw [hcv] at hfst hm
      simp only at hfst hm
      simp only [hfst, hsort]
      exact hm
    · intro v hv
      have hvmem : v ∈ variants := by rw [hsplit]; simp [hv]
      have hne' := hpost v hv
      rw [← hk, intOfUint32_eq (hu32 v hvmem) (hfit v hvmem),
        intOfUint32_eq (hu32 best hbest) (hfit best hbest)] at hne'
      exact lt_of_le_of_ne (hle v hvmem) (fun e => hne' (by rw [e]))

/-- C10, as stated, fails where `int` has 32 bits: of the two variants with
bandwidths 3000000000 and 800000 (both `uint32` values) the conversion turns
the first into a negative integer, the sort puts 800000 first, and
`parseHlsSegments` goes on with the variant of bandwidth 800000, which is not
the highest, and returns the segments of its playlist. With 64-bit `int` the same list gives the variant of bandwidth
3000000000. -/
theorem bestVariant_wraps_on_32_bit_int :
    wideWorld32.intBits = 32 ∧
    (∀ v ∈ wideVariants, v.Bandwidth < 2 ^ 32) ∧
    intOfUint32 32 3000000000 = -1294967296 ∧
    bestVariant 32 wideVariants = some ⟨"low/index.m3u8", 800000, "640x360"⟩ ∧
    (⟨"uhd/index.m3u8", 3000000000, "3840x2160"⟩ : Variant) ∈ wideVariants ∧
    variantURL wideWorld32 "http://example.com/live/master.m3u8"
        ⟨"low/index.m3u8", 800000, "640x360"⟩ =
      .ok "http://example.com/live/low/index.m3u8" ∧
    (returnedSegments
        (parseHlsSegments wideWorld32 2 "http://example.com/live/master.m3u8")).map
        (List.map Segment.URI) =
      some ["http://example.com/live/low/seg0.ts", "archive/http/seg1.ts"] ∧
    bestVariant 64 wideVariants = some ⟨"uhd/index.m3u8", 3000000000, "3840x2160"⟩ := by
  refine ⟨rfl, by decide, by decide, by decide, by decide, rfl, by decide, by decide⟩

/-- C10, amended. The `int` of the target has 32 or 64 bits. For every master
playlist (fetched from a URL that parses) with a non-empty list of variants of
`uint32` bandwidths, all below 2^31 where `int` has 32 bits, `parseHlsSegments`
goes on with the URL computed for one variant `best`; `best` is a member of the
list, its bandwidth is greater than or equal to that of every variant of the
list, and every variant later in the list has a strictly smaller bandwidth (of
several variants sharing the maximum, the latest is chosen). -/
theorem parseHlsSegments_follows_highest_bandwidth
    (w : ParserWorld) (hlsURL parsed : String) (masterpl : MasterPlaylist) (fuel : Nat)
    (hbits : w.intBits = 32 ∨ w.intBits = 64)
    (hurl : w.urlParse hlsURL = .ok parsed)
    (hlist : getM3u8ListType w hlsURL = .ok (.master (some masterpl)))
    (hne : masterpl.Variants ≠ [])
    (hu32 : ∀ v ∈ masterpl.Variants, v.Bandwidth < 2 ^ 32)
    (hsmall : w.intBits = 32 → ∀ v ∈ masterpl.Variants, v.Bandwidth < 2 ^ 31) :
    ∃ best pre post, bestVariant w.intBits masterpl.Variants = some best ∧
      best ∈ masterpl.Variants ∧
      masterpl.Variants = pre ++ best :: post ∧
      (∀ v ∈ masterpl.Variants, v.Bandwidth ≤ best.Bandwidth) ∧
      (∀ v ∈ post, v.Bandwidth < best.Bandwidth) ∧
      parseHlsSegments w (fuel + 1) hlsURL =
        (match variantURL w hlsURL best with
         | .error err => some (.error err)
         | .ok u => parseHlsSegments w fuel u) := by
  have hfit : ∀ v ∈ masterpl.Variants, v.Bandwidth < 2 ^ (w.intBits - 1) := by
    intro v hv
    rcases hbits with h32 | h64
    · rw [h32]; exact hsmall h32 v hv
    · rw [h64]; exact Nat.lt_of_lt_of_le (hu32 v hv) (by decide)
  obtain ⟨best, pre, post, hbest, hsplit, hle, hlt⟩ :=
    bestVariant_spec w.intBits masterpl.Variants hne hu32 hfit
  refine ⟨best, pre, post, hbest, by rw [hsplit]; simp, hsplit, hle, hlt, ?_⟩
  have hlen : masterpl.Variants.length ≠ 0 := by
    simpa [List.length_eq_zero] using hne
  simp only [parseHlsSegments, hurl, hlist, hlen, hbest, if_false]

/-- C10, amended, at a master playlist of three variants, the last two sharing the
highest bandwidth, on a target with 32-bit `int`. -/
theorem parseHlsSegments_follows_highest_bandwidth_witness :
    ∃ best pre post, bestVariant masterWorld.intBits sampleVariants = some best ∧
      best ∈ sampleVariants ∧
      sampleVariants = pre ++ best :: post ∧
      (∀ v ∈ sampleVariants, v.Bandwidth ≤ best.Bandwidth) ∧
      (∀ v ∈ post, v.Bandwidth < best.Bandwidth) ∧
      parseHlsSegments masterWorld (0 + 1) "http://example.com/live/master.m3u8" =
        (match variantURL masterWorld "http://example.com/live/master.m3u8" best with
         | .error err => some (.error err)
         | .ok u => parseHlsSegments masterWorld 0 u) :=
  parseHlsSegments_follows_highest_bandwidth masterWorld
    "http://example.com/live/master.m3u8" "http://example.com/live/master.m3u8"
    ⟨sampleVariants⟩ 0 (Or.inl rfl) rfl rfl (by decide) (by decide) (fun _ => by decide)

/-- The choice on `sampleVariants`, with 32-bit and with 64-bit `int`: the later of
the two variants sharing the highest bandwidth, followed at the URL resolved
against the playlist URL. -/
theorem bestVariant_example :
    bestVariant 32 sampleVariants = some ⟨"high-b/index.m3u8", 2400000, "1920x1080"⟩ ∧
    bestVariant 64 sampleVariants = some ⟨"high-b/index.m3u8", 2400000, "1920x1080"⟩ ∧
    variantURL masterWorld "http://example.com/live/master.m3u8"
        ⟨"high-b/index.m3u8", 2400000, "1920x1080"⟩ =
      .ok "http://example.com/live/high-b/index.m3u8" := by
  refine ⟨by decide, by decide, rfl⟩

/-! ### Segments of a media playlist -/

/-- The loop adds, to the segments gathered before, one segment per non-nil
entry, in the order of the entries. -/
theorem parseMediaLoop_spec (w : ParserWorld) (hlsURL : String) (playlistKey : Option Nat)
    (entries : List (Option MediaSegment)) (keys : Nat → Key) (acc : List Segment)
    (segments : List Segment) (keys' : Nat → Key)
    (h : parseMediaLoop w hlsURL playlistKey entries keys acc = .ok (segments, keys')) :
    ∃ added, segments = acc ++ added ∧
      List.Forall₂ (SegmentFrom w hlsURL) added entries.reduceOption := by
  induction entries generalizing keys acc with
  | nil =>
    simp only [parseMediaLoop] at h
    cases h
    exact ⟨[], by simp, by simp⟩
  | cons entry rest ih =>
    cases entry with
    | none =>
      simp only [parseMediaLoop] at h
      obtain ⟨added, h1, h2⟩ := ih keys acc h
      exact ⟨added, h1, by simpa [List.reduceOption_cons_of_none] using h2⟩
    | some seg =>
      have hfrom : ∀ uri key,
          (if !stringsContains seg.URI "http" then w.resolve hlsURL seg.URI else .ok seg.URI) =
            .ok uri →
          SegmentFrom w hlsURL { SeqId := seg.SeqId, URI := uri, Key := key, Path := "" } seg := by
        intro uri key hu
        refine ⟨rfl, fun hc => ?_, fun hc => ?_⟩
        · simp only [hc, Bool.not_true, Bool.false_eq_true, if_false] at hu
          cases hu; rfl
        · simpa [hc] using hu
      have hcons : ∀ uri key added keys₁,
          (if !stringsContains seg.URI "http" then w.resolve hlsURL seg.URI else .ok seg.URI) =
            .ok uri →
          parseMediaLoop w hlsURL playlistKey rest keys₁
            (acc ++ [{ SeqId := seg.SeqId, URI := uri, Key := key, Path := "" }]) =
              .ok (segments, keys') →
          added = ({ SeqId := seg.SeqId, URI := uri, Key := key, Path := "" } : Segment) :: [] →
          ∃ added, segments = acc ++ added ∧
            List.Forall₂ (SegmentFrom w hlsURL) added (some seg :: rest).reduceOption := by
        intro uri key added keys₁ hu hrest _
        obtain ⟨more, h1, h2⟩ := ih keys₁ _ hrest
        refine ⟨{ SeqId := seg.SeqId, URI := uri, Key := key, Path := "" } :: more, ?_, ?_⟩
        · rw [h1]; simp
        · rw [List.reduceOption_cons_of_some]
          exact List.Forall₂.cons (hfrom uri key hu) h2
      simp only [parseMediaLoop] at h
      split at h
      · cases h
      · rename_i uri hu
        split at h
        · exact hcons uri _ _ keys hu h rfl
        · rename_i a ha
          split at h
          · split at h
            · cases h
            · exact hcons uri _ _ _ hu h rfl
          · exact hcons uri _ _ keys hu h rfl

theorem segmentFrom_seqIds (w : ParserWorld) (hlsURL : String) (outs : List Segment)
    (entries : List MediaSegment) (h : List.Forall₂ (SegmentFrom w hlsURL) outs entries) :
    outs.map Segment.SeqId = entries.map MediaSegment.SeqId := by
  induction h with
  | nil => rfl
  | cons hab _ ih => simp [hab.1, ih]

/-- C9, as stated, fails: in a media playlist fetched from the absolute URL
`http://example.com/live/index.m3u8`, the relative segment URI
`archive/http/seg1.ts` contains "http", so it is returned as it is: not
absolute, and not its resolution against the playlist URL. -/
theorem relative_uri_containing_http_is_kept :
    isAbsURI "http://example.com/live/index.m3u8" = true ∧
    returnedSegments (parseHlsSegments sampleWorld 1 "http://example.com/live/index.m3u8") =
      some sampleParsed ∧
    sampleParsed.map Segment.URI =
      ["http://example.com/live/seg0.ts", "archive/http/seg1.ts"] ∧
    isAbsURI "archive/http/seg1.ts" = false ∧
    sampleWorld.resolve "http://example.com/live/index.m3u8" "archive/http/seg1.ts" =
      .ok "http://example.com/live/archive/http/seg1.ts" := by
  refine ⟨by decide, by decide, by decide, by decide, rfl⟩

/-- C9, amended. For a media playlist fetched from a URL that parses, when the
loop succeeds `parseHlsSegments` returns its segments: one per non-nil entry of
the playlist, in the order of the playlist, with the sequence id of the entry;
the URI of an entry that does not contain "http" is replaced by its resolution
against the playlist URL, a URI that contains "http" is kept as it is. Hence,
resolution yielding absolute URIs, a returned segment is absolute whenever the
URI of its entry does not contain "http" or was absolute already. -/
theorem parseHlsSegments_resolves_uris_without_http
    (w : ParserWorld) (hlsURL parsed : String) (mediaList : MediaPlaylist) (fuel : Nat)
    (segments : List Segment) (keys : Nat → Key)
    (hurl : w.urlParse hlsURL = .ok parsed)
    (hlist : getM3u8ListType w hlsURL = .ok (.media mediaList))
    (hloop : parseMediaLoop w hlsURL mediaList.Key mediaList.Segments mediaList.keys [] =
      .ok (segments, keys)) :
    parseHlsSegments w (fuel + 1) hlsURL = some (.ok (segments, keys)) ∧
    segments.map Segment.SeqId = mediaList.Segments.reduceOption.map MediaSegment.SeqId ∧
    List.Forall₂ (SegmentFrom w hlsURL) segments mediaList.Segments.reduceOption ∧
    (ResolvesToAbsolute w hlsURL →
      List.Forall₂
        (fun out seg =>
          (stringsContains seg.URI "http" = false ∨ isAbsURI seg.URI = true) →
            isAbsURI out.URI = true)
        segments mediaList.Segments.reduceOption) := by
  obtain ⟨added, h1, h2⟩ := parseMediaLoop_spec w hlsURL _ _ _ _ _ _ hloop
  simp only [List.nil_append] at h1
  subst h1
  refine ⟨?_, ?_, h2, fun habs => ?_⟩
  · simp only [parseHlsSegments, hurl, hlist, hloop]
  · exact segmentFrom_seqIds w hlsURL _ _ h2
  · refine h2.imp (fun out seg hfrom hor => ?_)
    cases hc : stringsContains seg.URI "http" with
    | false => exact habs _ _ (hfrom.2.2 hc)
    | true =>
      rcases hor with hor | hor
      · rw [hc] at hor; cases hor
      · rw [hfrom.2.1 hc]; exact hor

/-- C9, amended, at a media playlist with a nil entry and a relative URI that
contains "http". -/
theorem parseHlsSegments_resolves_uris_without_http_witness :
    parseHlsSegments sampleWorld (0 + 1) "http://example.com/live/index.m3u8" =
      some (.ok (sampleParsed, sampleMedia.keys)) ∧
    sampleParsed.map Segment.SeqId =
      sampleMedia.Segments.reduceOption.map MediaSegment.SeqId ∧
    List.Forall₂ (SegmentFrom sampleWorld "http://example.com/live/index.m3u8")
      sampleParsed sampleMedia.Segments.reduceOption ∧
    (ResolvesToAbsolute sampleWorld "http://example.com/live/index.m3u8" →
      List.Forall₂
        (fun out seg =>
          (stringsContains seg.URI "http" = false ∨ isAbsURI seg.URI = true) →
            isAbsURI out.URI = true)
        sampleParsed sampleMedia.Segments.reduceOption) :=
  parseHlsSegments_resolves_uris_without_http sampleWorld
    "http://example.com/live/index.m3u8" "http://example.com/live/index.m3u8"
    sampleMedia 0 sampleParsed sampleMedia.keys rfl rfl rfl

/-! ### The worker of the transition system follows the retry loop -/

/-- One attempt of worker `i`, `quitChan` open: check, start of the fetch, end of
the fetch. -/
theorem worker_attempt (cfg : Config) (s : State) (i : Nat) (seg : Segment) (t : Nat)
    (hpc : s.workers[i]? = some (.check seg t)) (hq : s.quitClosed = false) :
    run cfg s [.worker i, .worker i, .worker i] =
      some { s with
        workers := s.workers.set i (afterAttempt cfg seg t),
        fetchLog := s.fetchLog ++ [⟨i, seg.SeqId, t, false⟩] } := by
  have hlt : i < s.workers.length := by
    obtain ⟨h, -⟩ := List.getElem?_eq_some.mp hpc
    exact h
  have h1 : step cfg s (.worker i) =
      some { s with workers := s.workers.set i (.fetch seg t) } := by
    simp [step, hpc, workerStep, hq]
  have h2 : step cfg { s with workers := s.workers.set i (.fetch seg t) } (.worker i) =
      some { s with
        workers := s.workers.set i (.fetching seg t),
        fetchLog := s.fetchLog ++ [⟨i, seg.SeqId, t, false⟩] } := by
    simp [step, List.getElem?_set_self hlt, workerStep, hq, List.set_set]
  have h3 : step cfg
      { s with
        workers := s.workers.set i (.fetching seg t),
        fetchLog := s.fetchLog ++ [⟨i, seg.SeqId, t, false⟩] } (.worker i) =
      some { s with
        workers := s.workers.set i (afterAttempt cfg seg t),
        fetchLog := s.fetchLog ++ [⟨i, seg.SeqId, t, false⟩] } := by
    simp only [step, List.getElem?_set_self hlt, workerStep, afterAttempt]
    cases downloadSegment (cfg.net seg.SeqId t) seg with
    | none => simp [List.set_set]
    | some err => cases hr : retryable err t <;> simp [List.set_set, hr]
  simp only [run, h1, h2, h3]

theorem downloadLoop_fetches_gt (world : Nat → FetchWorld) (seg : Segment) (fuel tried : Nat)
    (r : SegmentRun) (h : downloadLoop neverQuit world seg fuel tried = some r) :
    tried < r.fetches := by
  induction fuel generalizing tried with
  | zero => simp [downloadLoop] at h
  | succ fuel ih =>
    simp only [downloadLoop, neverQuit, Bool.false_eq_true, if_false] at h
    split at h
    · split at h
      · exact Nat.lt_trans (Nat.lt_succ_self _) (ih _ h)
      · cases h; exact Nat.lt_succ_self _
    · cases h; exact Nat.lt_succ_self _

/-- Worker `i`, standing at its check for attempt `tried + 1` with `quitChan` open
and left to run alone, reaches the position the retry loop computes, having
started one fetch per attempt the loop counts. -/
theorem worker_follows_downloadLoop (cfg : Config) (i : Nat) (seg : Segment)
    (fuel tried : Nat) (s : State) (r : SegmentRun)
    (hpc : s.workers[i]? = some (.check seg (tried + 1))) (hq : s.quitClosed = false)
    (hloop : downloadLoop neverQuit (cfg.net seg.SeqId) seg fuel tried = some r) :
    ∃ n log,
      run cfg s (List.replicate n (Action.worker i)) =
        some { s with
          workers := s.workers.set i (afterLoop seg r),
          fetchLog := s.fetchLog ++ log } ∧
      log.length = r.fetches - tried ∧
      ∀ f ∈ log, f.worker = i ∧ f.SeqId = seg.SeqId ∧ f.afterQuit = false := by
  induction fuel generalizing tried s with
  | zero => simp [downloadLoop] at hloop
  | succ fuel ih =>
    have hthree := worker_attempt cfg s i seg (tried + 1) hpc hq
    have hlt : i < s.workers.length := by
      obtain ⟨h, -⟩ := List.getElem?_eq_some.mp hpc
      exact h
    simp only [downloadLoop, neverQuit, Bool.false_eq_true, if_false] at hloop
    cases hd : downloadSegment (cfg.net seg.SeqId (tried + 1)) seg with
    | none =>
      simp only [hd] at hloop
      cases hloop
      refine ⟨3, [⟨i, seg.SeqId, tried + 1, false⟩], ?_, by simp, by simp⟩
      simpa [afterAttempt, hd, afterLoop] using hthree
    | some err =>
      simp only [hd] at hloop
      cases hr : retryable err (tried + 1) with
      | false =>
        simp only [hr, Bool.false_eq_true, if_false] at hloop
        cases hloop
        refine ⟨3, [⟨i, seg.SeqId, tried + 1, false⟩], ?_, by simp, by simp⟩
        simpa [afterAttempt, hd, hr, afterLoop] using hthree
      | true =>
        simp only [hr, if_true] at hloop
        have hgt := downloadLoop_fetches_gt _ _ _ _ _ hloop
        obtain ⟨n, log, hrun, hlen, hlog⟩ := ih (tried + 1)
          { s with
            workers := s.workers.set i (.check seg (tried + 1 + 1)),
            fetchLog := s.fetchLog ++ [⟨i, seg.SeqId, tried + 1, false⟩] }
          (by simp [List.getElem?_set_self hlt]) hq hloop
        refine ⟨3 + n, ⟨i, seg.SeqId, tried + 1, false⟩ :: log, ?_, ?_, ?_⟩
        · rw [List.replicate_add, run_append]
          have h3 : List.replicate 3 (Action.worker i) = [.worker i, .worker i, .worker i] := rfl
          rw [h3, hthree]
          simp only [afterAttempt, hd, hr, if_true, Option.some_bind]
          rw [hrun]
          simp [List.set_set, List.append_assoc]
        · simp only [List.length_cons, hlen]
          omega
        · intro f hf
          rcases List.mem_cons.mp hf with rfl | hf'
          · exact ⟨rfl, rfl, rfl⟩
          · exact hlog f hf'

end Hlsdl
